import Mathlib

/-!
# Verification of the LittleScienceAI topic-helper core

Shallow embedding, in Lean 4, of the pure core of the repository:

* `app/services/nlp_processor.py` — `NLPService.extract_keywords`
* `app/utils/cleaner.py` — `clean_text`, `clean_keywords`, `normalize_paper_info`,
  `merge_search_results`, `save_to_cache`, `load_from_cache`
* `app/services/scholar_api.py` — `load_internal_db` (built-in sample data),
  `search_internal_db`, the three external sample searches
* `app/agents/query_agent.py` — `generate_paper_content`, `generate_niche_content`
* `app/routes/query_router.py` — the `search_papers` endpoint body

Python strings are modelled as Lean `String`; `dict` records as structures with
`Option` fields (a `none` field models an absent key); JSON payloads as a small
inductive of JSON values; the filesystem cache as an explicit store function;
the LLM backend and Python's process-scoped `hash` as parameters of an
environment record (both are process/environment dependent I/O).  Character
class predicates (`\w`, `\s`, `str.lower`) are modelled on the character
ranges that actually occur in this code base: ASCII plus Hangul syllables.
-/

/-! ## Character classes and elementary Python string operations -/

/-- Model of Python `str.lower` on one character (ASCII range; the Korean text
in this program has no case). -/
def pyLowerChar (c : Char) : Char :=
  if 65 ≤ c.toNat ∧ c.toNat ≤ 90 then Char.ofNat (c.toNat + 32) else c

/-- Model of Python `str.lower` (character-wise; built on the character list
so that it evaluates by kernel reduction). -/
def pyLower (s : String) : String := String.mk (s.data.map pyLowerChar)

/-- Model of Python's `\s` / `str.split()` / `str.strip()` whitespace class
(space, tab, newline, carriage return, vertical tab, form feed). -/
def pyWsChar (c : Char) : Bool :=
  c.toNat == 32 || c.toNat == 9 || c.toNat == 10 || c.toNat == 13 ||
    c.toNat == 11 || c.toNat == 12

/-- Hangul syllable block U+AC00–U+D7A3, as written in the source regexes. -/
def isHangulSyl (c : Char) : Bool :=
  0xAC00 ≤ c.toNat && c.toNat ≤ 0xD7A3

/-- ASCII letter. -/
def isAsciiAlpha (c : Char) : Bool :=
  (97 ≤ c.toNat && c.toNat ≤ 122) || (65 ≤ c.toNat && c.toNat ≤ 90)

/-- ASCII digit. -/
def isAsciiDigit (c : Char) : Bool :=
  48 ≤ c.toNat && c.toNat ≤ 57

/-- Model of Python's `\w` (word character) for the character ranges used by
this program: ASCII alphanumerics, underscore, Hangul syllables. -/
def pyWordChar (c : Char) : Bool :=
  isAsciiAlpha c || isAsciiDigit c || c.toNat == 95 || isHangulSyl c

/-- One step of `re.sub(r'[^가-힣a-zA-Z0-9\s]', ' ', text)`: the
pattern matches single characters, so the substitution is character-wise. -/
def keepOrSpace (c : Char) : Char :=
  if isHangulSyl c || isAsciiAlpha c || isAsciiDigit c || pyWsChar c then c else ' '

/-- Helper for `pySplitWs`: accumulates the current token (reversed). -/
def splitWsGo : List Char → List Char → List String
  | [], acc => if acc.isEmpty then [] else [String.mk acc.reverse]
  | c :: cs, acc =>
    if pyWsChar c then
      if acc.isEmpty then splitWsGo cs [] else String.mk acc.reverse :: splitWsGo cs []
    else splitWsGo cs (c :: acc)

/-- Model of Python `str.split()` with no argument: split on whitespace runs,
dropping empty tokens. -/
def pySplitWs (s : String) : List String := splitWsGo s.data []

/-! ## `NLPService.extract_keywords` (app/services/nlp_processor.py) -/

/-- The stop-word list of `extract_keywords`. -/
def nlpStopWords : List String :=
  ["은", "는", "이", "가", "을", "를", "에", "의", "과", "와", "이다", "있다",
   "the", "a", "an", "is", "are", "was", "were", "in", "on", "at", "to", "and", "or"]

/-- The body of the counting loop filter: `word not in stop_words and len(word) > 1`. -/
def qualifies (w : String) : Bool :=
  !(nlpStopWords.contains w) && decide (1 < w.length)

/-- Increment the count of `w` in an association list, preserving first-encounter
key order — the model of one `word_freq[word] += 1 / = 1` step on a Python dict. -/
def bump : List (String × Nat) → String → List (String × Nat)
  | [], w => [(w, 1)]
  | (x, n) :: rest, w =>
    if x = w then (x, n + 1) :: rest else (x, n) :: bump rest w

/-- The preprocessing of `extract_keywords`: lowercase, then replace every
character outside Hangul/ASCII-letters/digits/whitespace by a space. -/
def nlpPreprocess (text : String) : String :=
  String.mk ((pyLower text).data.map keepOrSpace)

/-- The tokens of the preprocessed text that pass the stop-word/length filter,
in text order (with repetitions). -/
def qualifyingTokens (text : String) : List String :=
  (pySplitWs (nlpPreprocess text)).filter qualifies

/-- The `word_freq` dict: keys in first-encounter order with their counts. -/
def wordFreq (text : String) : List (String × Nat) :=
  (qualifyingTokens text).foldl bump []

/-- Stable descending insertion by count: the inserted pair goes after every
earlier pair of greater-or-equal count.  Together with `sortFreqDesc` this is
the model of Python's stable `sorted(word_freq.items(), key, reverse=True)`. -/
def insertDesc (x : String × Nat) : List (String × Nat) → List (String × Nat)
  | [] => [x]
  | y :: ys => if y.2 < x.2 then x :: y :: ys else y :: insertDesc x ys

/-- Stable sort by count, descending (insertion sort; stability and sortedness
pin down the same permutation Python's stable sort produces). -/
def sortFreqDesc (l : List (String × Nat)) : List (String × Nat) :=
  l.foldl (fun acc x => insertDesc x acc) []

/-- The generic padding pool of `extract_keywords`. -/
def genericKeywords : List String :=
  ["연구", "분석", "효과", "방법", "시스템", "개발", "영향", "평가"]

/-- The final padding block of `extract_keywords`:
`if len(keywords) < num_keywords: keywords.extend(generic_keywords[:num_keywords - len(keywords)])`. -/
def padGeneric (keywords : List String) (numKeywords : Nat) : List String :=
  if keywords.length < numKeywords then
    keywords ++ genericKeywords.take (numKeywords - keywords.length)
  else keywords

/-- Model of `NLPService.extract_keywords` (the `except` branch of the source is dead in
this pure model: no statement of the body can raise). -/
def extract_keywords (text : String) (numKeywords : Nat) : List String :=
  padGeneric (((sortFreqDesc (wordFreq text)).take numKeywords).map Prod.fst) numKeywords

/-- The distinct qualifying tokens of the text, in first-encounter order
(the keys of `word_freq`). -/
def distinctQualifying (text : String) : List String :=
  (wordFreq text).map Prod.fst

/-! ## `clean_text` and `clean_keywords` (app/utils/cleaner.py)

`clean_text` performs, in source order: HTML-tag removal
(`re.sub(r'<[^>]+>', ' ', text)`), HTML entity decoding (`html.unescape`),
whitespace collapsing (`re.sub(r'\s+', ' ', text)`), `strip()`, and Unicode
NFC normalization.  NFC is modelled as the identity: real NFC is idempotent,
introduces none of the characters the other steps inspect (no ASCII, no
whitespace), and is the identity on the NFC-normal text of this code base
(ASCII and precomposed Hangul). -/

/-- Tag removal `re.sub(r'<[^>]+>', ' ', text)` as a left-to-right scan.
The state `none` is "outside a tag"; `some buf` means a candidate match opened
at `<` and `buf` holds the characters read since then (reversed).  A candidate
closes at the first later `>`: with a non-empty interior it is a match and is
replaced by one space; `<>` matches nothing and is emitted verbatim, as is an
unterminated trailing `<...`.  This is exactly the regex semantics: `[^>]+`
cannot cross a `>`, so a match runs from a `<` to the first following `>`
with at least one character in between. -/
def stripTagsGo : List Char → Option (List Char) → List Char
  | [], none => []
  | [], some buf => '<' :: buf.reverse
  | c :: cs, none =>
    if c = '<' then stripTagsGo cs (some [])
    else c :: stripTagsGo cs none
  | c :: cs, some buf =>
    if c = '>' then
      if buf.isEmpty then '<' :: '>' :: stripTagsGo cs none
      else ' ' :: stripTagsGo cs none
    else stripTagsGo cs (some (c :: buf))

/-- The apostrophe character (U+0027). -/
def aposChar : Char := Char.ofNat 39

/-- Model of `html.unescape`, modelled on the core named/numeric entities that the
surrounding code can produce (`&lt; &gt; &amp; &quot; &#39;`); a single
left-to-right non-recursive pass, like the Python original.  An `&` that does
not open one of these entities is kept verbatim. -/
def unescapeGo : List Char → List Char
  | [] => []
  | c :: cs =>
    if c = '&' then
      match cs with
      | 'l' :: 't' :: ';' :: rest => '<' :: unescapeGo rest
      | 'g' :: 't' :: ';' :: rest => '>' :: unescapeGo rest
      | 'a' :: 'm' :: 'p' :: ';' :: rest => '&' :: unescapeGo rest
      | 'q' :: 'u' :: 'o' :: 't' :: ';' :: rest => '"' :: unescapeGo rest
      | '#' :: '3' :: '9' :: ';' :: rest => aposChar :: unescapeGo rest
      | other => c :: unescapeGo other
    else c :: unescapeGo cs

/-- Whitespace collapsing `re.sub(r'\s+', ' ', text)`: every maximal
whitespace run becomes a single space (a whitespace character is emitted as a
space exactly when the next character is not whitespace). -/
def collapseWs : List Char → List Char
  | [] => []
  | [c] => [if pyWsChar c then ' ' else c]
  | c :: d :: rest =>
    if pyWsChar c && pyWsChar d then collapseWs (d :: rest)
    else (if pyWsChar c then ' ' else c) :: collapseWs (d :: rest)

/-- Model of `str.strip()` (no argument): drop leading and trailing whitespace
(trailing whitespace removed by reversing, dropping, reversing back). -/
def pyStripL (cs : List Char) : List Char :=
  ((cs.dropWhile pyWsChar).reverse.dropWhile pyWsChar).reverse

/-- Model of `str.strip()` on strings. -/
def pyStrip (s : String) : String := String.mk (pyStripL s.data)

/-- Model of `clean_text` of app/utils/cleaner.py (`if not text: return ""`, then tag
removal, entity decoding, whitespace collapsing, strip, NFC≡id). -/
def clean_text (s : String) : String :=
  if s = "" then ""
  else String.mk (pyStripL (collapseWs (unescapeGo (stripTagsGo s.data none))))

/-- The character class kept by `re.sub(r'[^\w\s가-힣]', '', keyword)`
(`가-힣` is inside the modelled `\w`). -/
def keepKwChar (c : Char) : Bool := pyWordChar c || pyWsChar c

/-- One keyword cleaning step of `clean_keywords`:
`keyword.strip().lower()` then removal of non-word/non-space characters. -/
def cleanKeyword (k : String) : String :=
  String.mk (((pyStripL k.data).map pyLowerChar).filter keepKwChar)

/-- The accumulation loop of `clean_keywords`: append the cleaned keyword
when it is non-empty and not already present. -/
def cleanKeywordsGo (acc : List String) : List String → List String
  | [] => acc
  | k :: ks =>
    if cleanKeyword k ≠ "" ∧ cleanKeyword k ∉ acc then
      cleanKeywordsGo (acc ++ [cleanKeyword k]) ks
    else cleanKeywordsGo acc ks

/-- Model of `clean_keywords` of app/utils/cleaner.py (the `if not keywords: return []`
guard coincides with the loop on an empty list). -/
def clean_keywords (ks : List String) : List String := cleanKeywordsGo [] ks

/-! ## Paper records and `normalize_paper_info` -/

/-- The JSON-ish value found under a record's `keywords` key: a list of
strings, a comma-separated string, or something else. -/
inductive KwField where
  | list (ks : List String)
  | str (s : String)
  | other
deriving DecidableEq

/-- A raw paper record (a Python dict); a `none` field models an absent key. -/
structure Paper where
  title : Option String := none
  authors : Option String := none
  year : Option String := none
  abstract : Option String := none
  source : Option String := none
  url : Option String := none
  keywords : Option KwField := none
  type : Option String := none
deriving DecidableEq

/-- A normalized paper record: `normalize_paper_info` always materializes the
five text fields, a keyword list and a type tag. -/
@[ext]
structure NPaper where
  title : String
  authors : String
  year : String
  abstract : String
  source : String
  url : Option String
  keywords : List String
  type : String
deriving DecidableEq

/-- Re-injection of a normalized record as a raw record (the output dict of
`normalize_paper_info` fed back in as input). -/
def NPaper.toPaper (np : NPaper) : Paper :=
  { title := some np.title, authors := some np.authors, year := some np.year,
    abstract := some np.abstract, source := some np.source, url := np.url,
    keywords := some (KwField.list np.keywords), type := some np.type }

/-- The stop-word list used when extracting keywords from a title. -/
def titleStopWords : List String :=
  ["연구", "분석", "효과", "방법", "시스템", "개발", "영향", "평가",
   "the", "a", "an", "of", "and", "in", "on", "at", "to", "for"]

/-- Maximal word-character runs: the model of `re.findall(r'\b\w+\b', s)`
(accumulator holds the current run, reversed). -/
def wordRunsGo : List Char → List Char → List String
  | [], acc => if acc.isEmpty then [] else [String.mk acc.reverse]
  | c :: cs, acc =>
    if pyWordChar c then wordRunsGo cs (c :: acc)
    else if acc.isEmpty then wordRunsGo cs [] else String.mk acc.reverse :: wordRunsGo cs []

/-- Order-preserving de-duplication keeping first occurrences
(`list(dict.fromkeys(...))`). -/
def dedupFirstGo (acc : List String) : List String → List String
  | [] => acc
  | k :: ks => if k ∈ acc then dedupFirstGo acc ks else dedupFirstGo (acc ++ [k]) ks

/-- The fallback keyword extraction from the (already normalized) title:
word runs of the lowercased title, minus stop words and 1-character words,
de-duplicated, first 5. -/
def extractTitleKeywords (title : String) : List String :=
  (dedupFirstGo []
    ((wordRunsGo (pyLower title).data []).filter
      (fun w => !(titleStopWords.contains w) && decide (1 < w.length)))).take 5

/-- Model of `str.split(',')`. -/
def splitCommaGo : List Char → List Char → List String
  | [], acc => [String.mk acc.reverse]
  | c :: cs, acc =>
    if c = ',' then String.mk acc.reverse :: splitCommaGo cs []
    else splitCommaGo cs (c :: acc)

/-- Model of `split(',')` on strings (always at least one part, like Python). -/
def splitOnComma (s : String) : List String := splitCommaGo s.data []

/-- Model of `normalize_paper_info` of app/utils/cleaner.py.  `nowYear` stands for
`str(datetime.now().year)`, used only when the `year` key is absent.  Fields
are modelled as strings (the source applies `str(...)` before cleaning). -/
def normalize_paper_info (nowYear : String) (p : Paper) : NPaper :=
  let title := p.title.elim "제목 없음" clean_text
  let kw0 :=
    match p.keywords with
    | some (KwField.list ks) => clean_keywords ks
    | some (KwField.str s) => clean_keywords ((splitOnComma s).map pyStrip)
    | some KwField.other => []
    | none => []
  { title := title
    authors := p.authors.elim "저자 미상" clean_text
    year := p.year.elim nowYear clean_text
    abstract := p.abstract.elim "초록 정보가 없습니다." clean_text
    source := p.source.elim "출처 미상" clean_text
    url := p.url
    keywords := if kw0 = [] then extractTitleKeywords title else kw0
    type := p.type.getD (if p.url.isSome then "external" else "internal") }

/-! ## `merge_search_results` -/

/-- The de-duplication key: the normalized title, lowercased. -/
def lowTitle (np : NPaper) : String := pyLower np.title

/-- One de-duplication pass: keep the records whose lowercased title is not in
`seen`, first occurrence only; also return the final `seen_titles` set
(as a list). -/
def mergeDedupGo (seen : List String) : List NPaper → List NPaper × List String
  | [] => ([], seen)
  | p :: ps =>
    if lowTitle p ∈ seen then mergeDedupGo seen ps
    else
      let r := mergeDedupGo (lowTitle p :: seen) ps
      (p :: r.1, r.2)

/-- Model of `merge_search_results` of app/utils/cleaner.py: normalize both lists, then
de-duplicate external-then-internal against one shared `seen_titles` set. -/
def merge_search_results (nowYear : String) (internal external : List Paper) :
    List NPaper :=
  let ne := external.map (normalize_paper_info nowYear)
  let ni := internal.map (normalize_paper_info nowYear)
  let r1 := mergeDedupGo [] ne
  let r2 := mergeDedupGo r1.2 ni
  r1.1 ++ r2.1

/-! ### Predicates used to state the amended idempotence claim -/

/-- No two adjacent whitespace characters. -/
def noAdjWs : List Char → Bool
  | c :: d :: rest => !(pyWsChar c && pyWsChar d) && noAdjWs (d :: rest)
  | _ => true

/-- Every whitespace character is a plain space. -/
def allWsSpace (cs : List Char) : Bool :=
  cs.all (fun c => !pyWsChar c || c.toNat == 32)

/-- The field, when present, contains no `<` and no `&` (so tag stripping and
entity decoding cannot rewrite it or its cleaned image). -/
def optClean (o : Option String) : Bool :=
  o.elim true (fun s => s.data.all (fun c => !(c == '<') && !(c == '&')))

/-- The keywords field is absent, or is a list of strings made only of word
characters (ASCII alphanumerics, underscore, Hangul syllables). -/
def kwClean (o : Option KwField) : Bool :=
  match o with
  | none => true
  | some (KwField.list ks) => ks.all (fun k => k.data.all pyWordChar)
  | some (KwField.str _) => false
  | some KwField.other => false

/-- All-digit string (the shape of `str(datetime.now().year)`). -/
def digitsOnly (s : String) : Bool := s.data.all isAsciiDigit

/-- Concrete external record (concrete instance for the merge theorem):
same title as `piW` up to case. -/
def peW : Paper := { title := some "AB", url := some "u" }

/-- Concrete internal record (concrete instance for the merge theorem). -/
def piW : Paper := { title := some "ab" }

/-- Concrete record whose title holds HTML entities that decode to a tag:
`clean_text` maps it to `"<b>hi"`, which a second pass strips to `"hi"`. -/
def paperC6 : Paper := { title := some "&lt;b&gt;hi" }

/-- Concrete clean record (with Hangul and ASCII word-character keywords) for
the amended idempotence theorem. -/
def pW6 : Paper :=
  { title := some "광촉매 나노입자 연구", authors := some "Kim, Lee",
    abstract := some "TiO2 based photocatalysis of microplastics",
    keywords := some (KwField.list ["나노", "tio2"]) }

/-! ## The JSON file cache: `save_to_cache` / `load_from_cache`
(app/utils/cleaner.py)

The cache directory is modelled as a store from the hash-derived file name
(the integer `hash(key)`) to the parsed cache entry; `h` stands for Python's
process-scoped `hash` builtin (an arbitrary function of the key in this
model).  Wall-clock times are integral seconds; `datetime` arithmetic
`(now - cache_time).total_seconds() / 3600 > max_age_hours` is compared as
`now - timestamp > max_age_hours * 3600`.  `json.dump`/`json.load` round-trip
JSON-serializable payloads, so serialization is modelled as the identity on
an opaque payload type. -/

/-- A written cache entry: `{"key": key, "timestamp": now, "data": data}`. -/
structure CacheEntry (α : Type) where
  key : String
  timestamp : Nat
  data : α
deriving DecidableEq

/-- Model of `save_to_cache`: build the entry and overwrite `f"{hash(key)}.json"`
unconditionally (directory creation and the write are modelled as
succeeding; the source's `except` branch only reports failure). -/
def save_to_cache {α : Type} (h : String → Int)
    (store : Int → Option (CacheEntry α)) (now : Nat) (key : String) (data : α) :
    Int → Option (CacheEntry α) :=
  fun f => if f = h key then some ⟨key, now, data⟩ else store f

/-- Model of `load_from_cache`: read `f"{hash(key)}.json"`; missing file is a miss;
an entry older than `max_age_hours` is a miss; otherwise return the `data`
field.  The stored `key` field is never compared with the requested key. -/
def load_from_cache {α : Type} (h : String → Int)
    (store : Int → Option (CacheEntry α)) (now : Nat) (key : String)
    (maxAgeHours : Nat) : Option α :=
  match store (h key) with
  | none => none
  | some e => if now - e.timestamp > maxAgeHours * 3600 then none else some e.data

/-! ## ScholarService (app/services/scholar_api.py) -/

/-- Substring containment on character lists (Python `needle in hay`). -/
def isInfixL (needle : List Char) : List Char → Bool
  | [] => needle.isEmpty
  | c :: t => needle.isPrefixOf (c :: t) || isInfixL needle t

/-- Python `needle in hay` on strings. -/
def strContains (hay needle : String) : Bool := isInfixL needle.data hay.data

/-- The first built-in sample record of `load_internal_db`. -/
def samplePaper1 : Paper :=
  { title := some "광촉매를 이용한 미세플라스틱 분해 연구",
    authors := some "김지원, 이하늘", year := some "2023",
    abstract := some "본 연구는 TiO2 기반 광촉매를 활용하여 해양 미세플라스틱을 효과적으로 분해할 수 있는 방법을 탐구하였다.",
    source := some "제65회 한국과학전람회",
    keywords := some (KwField.list ["광촉매", "미세플라스틱", "환경오염", "해양생태계"]),
    type := some "internal" }

/-- The second built-in sample record of `load_internal_db`. -/
def samplePaper2 : Paper :=
  { title := some "기후변화가 제주도 감귤 생산에 미치는 영향 분석",
    authors := some "박민준, 정소율", year := some "2022",
    abstract := some "제주도 지역의 10년간 기후 데이터와 감귤 생산량 데이터를 분석하여 온도 상승이 과실 품질과 수확량에 미치는 영향을 조사하였다.",
    source := some "제64회 전국과학전람회",
    keywords := some (KwField.list ["기후변화", "농업", "감귤", "생산량 분석"]),
    type := some "internal" }

/-- The third built-in sample record of `load_internal_db`. -/
def samplePaper3 : Paper :=
  { title := some "머신러닝을 활용한 식물 질병 조기 진단 시스템 개발",
    authors := some "최준호, 이민지", year := some "2023",
    abstract := some "컴퓨터 비전과 딥러닝 기술을 활용하여 작물 잎의 이미지만으로 질병을 조기에 진단할 수 있는 모바일 애플리케이션을 개발하였다.",
    source := some "2023 청소년과학탐구대회",
    keywords := some (KwField.list ["머신러닝", "식물병리학", "스마트팜", "컴퓨터 비전"]),
    type := some "internal" }

/-- The 3-record sample data returned by `load_internal_db` when the internal
DB file is absent. -/
def sampleInternalDb : List Paper := [samplePaper1, samplePaper2, samplePaper3]

/-- Model of `[k.lower() for k in paper["keywords"]]`: a list lowercases per element, a
string iterates its characters, anything else raises (TypeError). -/
def kwListLower : KwField → Except Unit (List String)
  | KwField.list ks => Except.ok (ks.map pyLower)
  | KwField.str s => Except.ok (s.data.map (fun c => pyLower (String.mk [c])))
  | KwField.other => Except.error ()

/-- The match test of `search_internal_db` for one record: topic in title or
abstract, or some keyword in title/abstract, or some keyword equal (as a list
member) to a lowercased record keyword.  Missing `title`/`abstract`/`keywords`
keys raise (KeyError), which the caller's `except` turns into `[]`. -/
def paperMatches (topicL : String) (kwsL : List String) (p : Paper) :
    Except Unit Bool := do
  let title ← match p.title with
    | some t => Except.ok t
    | none => Except.error ()
  let abs0 ← match p.abstract with
    | some a => Except.ok a
    | none => Except.error ()
  let pk ← match p.keywords with
    | some kf => kwListLower kf
    | none => Except.error ()
  let tl := pyLower title
  let al := pyLower abs0
  Except.ok (strContains tl topicL || strContains al topicL
    || kwsL.any (fun k => strContains tl k || strContains al k)
    || kwsL.any (fun k => pk.contains k))

/-- The scan loop of `search_internal_db` (exceptions abort the whole scan). -/
def searchGo (topicL : String) (kwsL : List String) :
    List Paper → Except Unit (List Paper)
  | [] => Except.ok []
  | p :: ps => do
    let m ← paperMatches topicL kwsL p
    let rest ← searchGo topicL kwsL ps
    Except.ok (if m then p :: rest else rest)

/-- Model of `search_internal_db`: linear scan of the loaded DB; any exception yields
`[]`. -/
def search_internal_db (db : List Paper) (topic : String)
    (keywords : List String) : List Paper :=
  match searchGo (pyLower topic) (keywords.map pyLower) db with
  | Except.ok r => r
  | Except.error _ => []

/-- Join a list of strings with a separator (`sep.join(...)`). -/
def joinSep (sep : String) : List String → String
  | [] => ""
  | [x] => x
  | x :: xs => x ++ sep ++ joinSep sep (xs)

/-- Whether each external HTTP call succeeds with status 200 (a failure or
exception yields `[]` for that source only). -/
structure NetEnv where
  arxivOk : Bool
  crossrefOk : Bool
  semanticOk : Bool

/-- The fixed template record `search_arxiv` returns on success. -/
def arxivSample (query : String) : Paper :=
  { title := some ("arXiv: " ++ query ++ "에 관한 최신 연구 동향"),
    authors := some "Smith et al.", year := some "2023",
    abstract := some ("This paper reviews recent advances in " ++ query
      ++ " research, focusing on methodological approaches and key findings."),
    source := some "arXiv:2301.12345",
    url := some "https://arxiv.org/abs/2301.12345",
    keywords := some (KwField.list ["literature review", "methodology", query]),
    type := some "external" }

/-- The fixed template record `search_crossref` returns on success. -/
def crossrefSample (query : String) : Paper :=
  { title := some ("CrossRef: " ++ query ++ "의 실험적 분석"),
    authors := some "Johnson et al.", year := some "2022",
    abstract := some ("An experimental analysis of " ++ query
      ++ " demonstrating significant improvements in efficiency and performance compared to conventional methods."),
    source := some "Journal of Scientific Research",
    url := some "https://doi.org/10.1234/example.5678",
    keywords := some (KwField.list ["experimental analysis", "efficiency", "performance"]),
    type := some "external" }

/-- The fixed template record `search_semantic_scholar` returns on success. -/
def semanticSample (query : String) : Paper :=
  { title := some ("Semantic Scholar: " ++ query ++ "에 대한 체계적 문헌 고찰"),
    authors := some "Zhang et al.", year := some "2023",
    abstract := some ("A systematic review of literature on " ++ query
      ++ ", synthesizing findings from 50 recent studies and identifying key research gaps."),
    source := some "Annual Review of Science",
    url := some "https://doi.org/10.5678/review.1234",
    keywords := some (KwField.list ["systematic review", "research gaps", "literature synthesis"]),
    type := some "external" }

/-- Model of `search_arxiv` (sample data on success, `[]` on failure). -/
def search_arxiv (env : NetEnv) (query : String) : List Paper :=
  if env.arxivOk then [arxivSample query] else []

/-- Model of `search_crossref`. -/
def search_crossref (env : NetEnv) (query : String) : List Paper :=
  if env.crossrefOk then [crossrefSample query] else []

/-- Model of `search_semantic_scholar`. -/
def search_semantic_scholar (env : NetEnv) (query : String) : List Paper :=
  if env.semanticOk then [semanticSample query] else []

/-- Model of `search_external_api`: build the query (topic plus up to 3 keywords) and
concatenate the three per-source result lists. -/
def search_external_api (env : NetEnv) (topic : String)
    (keywords : List String) : List Paper :=
  let query := if keywords ≠ [] then topic ++ " " ++ joinSep " " (keywords.take 3)
    else topic
  search_arxiv env query ++ search_crossref env query
    ++ search_semantic_scholar env query

/-! ## The `search_papers` endpoint (app/routes/query_router.py) -/

/-- Model of `if not request.keywords:` — `None` and `[]` are both falsy, so keywords
are auto-extracted in both cases. -/
def effectiveKeywords (topic : String) : Option (List String) → List String
  | none => extract_keywords topic 5
  | some [] => extract_keywords topic 5
  | some ks => ks

/-- The body of the `search_papers` route: internal search, external search,
then `all_papers = internal_papers + external_papers` — a plain concatenation
with no call to `merge_search_results` and no normalization. -/
def search_papers (env : NetEnv) (db : List Paper) (topic : String)
    (reqKeywords : Option (List String)) : List Paper :=
  let keywords := effectiveKeywords topic reqKeywords
  search_internal_db db topic keywords ++ search_external_api env topic keywords

/-- A record whose raw title contains doubled whitespace and a case variant:
returned by `search_papers` verbatim. -/
def dupPaper : Paper :=
  { title := some "abc  ABC", abstract := some "sample",
    keywords := some (KwField.list ["k1"]) }

/-- All three external sources reachable. -/
def netAllOk : NetEnv := { arxivOk := true, crossrefOk := true, semanticOk := true }

/-! ## QueryAgent (app/agents/query_agent.py)

`call_llm_api` is modelled as a total oracle `llm : String → String`: every
path of its body returns a string (no configured backend and every failure
fall through to `generate_sample_response`).  Python's process-scoped `hash`
builtin is the oracle `pyHash`.  The cache directory is a store from file
name — modelled as the pair (name stem, hash value), which determines
`f"{stem}_{hash}.json"` — to the on-disk file.  A cached file that exists but
does not parse is `parsed := none` (the inner `except` then regenerates).
Whether opening the cache file for writing succeeds is the flag `writeOk`
(on failure `open` raises and the outer `except` returns the canned dict).
The constant indentation of the Python triple-quoted prompt blocks is elided
in the transcribed prompt strings; the apostrophe is written `squo`. -/

/-- A JSON value as produced by the generator: a string or a string list. -/
inductive JVal where
  | s (v : String)
  | arr (vs : List String)
deriving DecidableEq

/-- A parsed JSON dict (a cached file may hold any such dict). -/
abbrev JDict := List (String × JVal)

/-- The keys of a response dict. -/
def dictKeys (d : JDict) : List String := d.map Prod.fst

/-- A cache file on disk: its age (hours since written — never consulted by
the generator paths) and its parse result (`none`: invalid JSON). -/
structure CacheFile where
  ageHours : Nat
  parsed : Option JDict
deriving DecidableEq

/-- File names: (name stem, hash value) standing for `f"{stem}_{hash}.json"`. -/
abbrev CacheName := String × Int

/-- The cache directory contents. -/
abbrev CacheStore := CacheName → Option CacheFile

/-- The environment of `QueryAgent`: the LLM oracle, the process hash, and
whether cache writes succeed. -/
structure AgentEnv where
  llm : String → String
  pyHash : String → Int
  writeOk : Bool

/-- Exceptions the generator body can raise. -/
inductive AgentErr where
  | indexError
  | typeError
  | ioError
deriving DecidableEq

/-- A single-quote character as a string. -/
def squo : String := String.mk [Char.ofNat 39]

/-- Python `s[:n]`. -/
def pyTake (n : Nat) (s : String) : String := String.mk (s.data.take n)

/-- Model of `', '.join(paper_info.get('keywords', []))`: absent key joins the default
empty list; a string joins its characters; a non-iterable raises. -/
def joinKeywords : Option KwField → Except AgentErr String
  | none => Except.ok ""
  | some (KwField.list ks) => Except.ok (joinSep ", " ks)
  | some (KwField.str s) =>
      Except.ok (joinSep ", " (s.data.map (fun c => String.mk [c])))
  | some KwField.other => Except.error AgentErr.typeError

/-- Model of `paper_info.get('keywords', ['research'])[0]`: indexing an empty list (or
empty string) raises IndexError; a non-subscriptable value raises. -/
def firstKeyword : Option KwField → Except AgentErr String
  | none => Except.ok "research"
  | some (KwField.list []) => Except.error AgentErr.indexError
  | some (KwField.list (k :: _)) => Except.ok k
  | some (KwField.str s) =>
      match s.data with
      | [] => Except.error AgentErr.indexError
      | c :: _ => Except.ok (String.mk [c])
  | some KwField.other => Except.error AgentErr.typeError

/-- The introduction prompt of `generate_paper_content`. -/
def introductionPrompt (topic title authors abstract kws : String) : String :=
  "\n다음 주제와 논문 정보를 바탕으로 학술 논문의 서론을 작성해주세요. 한국어로 작성하되, 학술적인 어조를 유지해주세요.\n\n주제: "
  ++ topic ++ "\n참고 논문 제목: " ++ title ++ "\n참고 논문 저자: " ++ authors
  ++ "\n참고 논문 초록: " ++ abstract ++ "\n참고 논문 키워드: " ++ kws
  ++ "\n\n서론에는 다음 내용을 포함해주세요:\n1. 연구 배경 및 중요성\n2. 기존 연구의 한계점\n3. 본 연구의 목적과 연구 질문\n4. 연구의 의의 및 기대효과\n\n형식은 "
  ++ squo ++ "# 서론" ++ squo ++ "으로 시작하고, 2-3 단락으로 구성해주세요.\n"

/-- The methods prompt of `generate_paper_content`. -/
def methodsPrompt (topic title kws : String) : String :=
  "\n다음 주제와 논문 정보를 바탕으로 학술 논문의 연구 방법 섹션을 작성해주세요. 한국어로 작성하되, 학술적인 어조를 유지해주세요.\n\n주제: "
  ++ topic ++ "\n참고 논문 제목: " ++ title ++ "\n참고 논문 키워드: " ++ kws
  ++ "\n\n연구 방법 섹션에는 다음 내용을 포함해주세요:\n1. 연구 설계 (연구 접근법, 설계 유형)\n2. 데이터 수집 방법 (표본 추출, 도구, 절차)\n3. 분석 방법 (통계적 기법, 질적 분석 방법)\n4. 윤리적 고려사항\n\n형식은 "
  ++ squo ++ "# 연구 방법" ++ squo ++ "으로 시작하고, 각 하위 섹션은 " ++ squo ++ "## 섹션 제목"
  ++ squo ++ "으로 구분해주세요.\n"

/-- The results prompt of `generate_paper_content`. -/
def resultsPrompt (topic title kws : String) : String :=
  "\n다음 주제와 논문 정보를 바탕으로 학술 논문의 연구 결과 섹션을 작성해주세요. 한국어로 작성하되, 학술적인 어조를 유지해주세요.\n\n주제: "
  ++ topic ++ "\n참고 논문 제목: " ++ title ++ "\n참고 논문 키워드: " ++ kws
  ++ "\n\n연구 결과 섹션에는 다음 내용을 포함해주세요:\n1. 주요 연구 결과 및 발견 (3가지 이상)\n2. 통계적 분석 결과 (가상의 데이터 기반)\n3. 결과에 대한 해석\n\n형식은 "
  ++ squo ++ "# 연구 결과" ++ squo ++ "로 시작하고, 각 주요 발견은 " ++ squo ++ "## 주요 발견 X"
  ++ squo ++ "와 같은 형식으로 구분해주세요.\n"

/-- The conclusion prompt of `generate_paper_content`. -/
def conclusionPrompt (topic title kws : String) : String :=
  "\n다음 주제와 논문 정보를 바탕으로 학술 논문의 결론 및 제언 섹션을 작성해주세요. 한국어로 작성하되, 학술적인 어조를 유지해주세요.\n\n주제: "
  ++ topic ++ "\n참고 논문 제목: " ++ title ++ "\n참고 논문 키워드: " ++ kws
  ++ "\n\n결론 및 제언 섹션에는 다음 내용을 포함해주세요:\n1. 주요 연구 결과 요약\n2. 이론적/실용적 의의\n3. 연구의 한계점\n4. 향후 연구 방향 제안\n\n형식은 "
  ++ squo ++ "# 결론 및 제언" ++ squo ++ "으로 시작하고, 2-3 단락으로 구성해주세요.\n"

/-- The references block (template-formatted, never sent to a backend). -/
def referencesBlock (topic authors year title source k0 : String) : String :=
  "\n# 참고문헌\n\n1. " ++ authors ++ " (" ++ year ++ "). " ++ title ++ ". *" ++ source
  ++ "*.\n2. Kim, J., & Lee, S. (2022). A systematic review of research trends in "
  ++ topic ++ ". Journal of Scientific Research, 45(3), 234-251.\n3. Park, M., & Choi, H. (2023). Methodological approaches to "
  ++ topic ++ " in educational contexts. International Journal of Science Education, 18(2), 187-203.\n4. Johnson, A., & Smith, B. (2021). Recent advances in "
  ++ k0 ++ " research. Annual Review of Science, 12, 78-95.\n5. Lee, Y., & Kim, T. (2023). Application of "
  ++ topic ++ " in real-world settings: Challenges and opportunities. Applied Research Journal, 9(4), 412-428.\n"

/-- The niche-topics prompt of `generate_paper_content`. -/
def nichePrompt (topic title kws : String) : String :=
  "\n다음 주제와 논문 정보를 바탕으로 새로운 연구 틈새(niche) 주제 5가지를 제안해주세요. 각 틈새 주제는 기존 연구에서 충분히 다루어지지 않았지만 높은 연구 가치가 있는 영역이어야 합니다.\n\n주제: "
  ++ topic ++ "\n참고 논문 제목: " ++ title ++ "\n참고 논문 키워드: " ++ kws
  ++ "\n\n틈새 주제는 \"XXX에 관한 연구\" 형식으로 작성해주세요.\n"

/-- The fixed disclaimer of `generate_paper_content`. -/
def paperDisclaimer : String :=
  "\n# 중요 안내\n\n이 내용은 AI에 의해 추론된 자료로, 실제 논문이 아닙니다. 참조용으로만 활용하시기 바라며, \n여기에 제시된 참고문헌은 실제 인용이나 학술적 활용이 불가능할 수 있습니다. \n실제 연구를 위해서는 추가적인 문헌 조사와 검증이 필요합니다.\n"

/-! ### Niche-topic extraction (claim C3) -/

/-- Python `text.split('\n')` (keeps empty parts). -/
def splitNlGo : List Char → List Char → List String
  | [], acc => [String.mk acc.reverse]
  | c :: cs, acc =>
    if c = '\n' then String.mk acc.reverse :: splitNlGo cs []
    else splitNlGo cs (c :: acc)

/-- Model of `split('\n')` on strings. -/
def splitNl (s : String) : List String := splitNlGo s.data []

/-- Model of `str.startswith(pre)`. -/
def strStartsWith (s pre : String) : Bool := pre.data.isPrefixOf s.data

/-- The usable-line test: starts with a bullet or a `1. `–`5. ` number. -/
def hasBulletMark (line : String) : Bool :=
  strStartsWith line "- " || strStartsWith line "* " || strStartsWith line "1. "
  || strStartsWith line "2. " || strStartsWith line "3. " || strStartsWith line "4. "
  || strStartsWith line "5. "

/-- The character class of `re.sub(r'^[0-9-*. ]+', '', line)`. -/
def isMarkChar (c : Char) : Bool :=
  isAsciiDigit c || c == '-' || c == '*' || c == '.' || c == ' '

/-- Strip the leading run of numbering/bullet characters. -/
def stripLeadMarks (line : String) : String :=
  String.mk (line.data.dropWhile isMarkChar)

/-- The 5 fixed topic-derived filler suggestions. -/
def defaultNicheTopics (topic : String) : List String :=
  [topic ++ "의 새로운 측정 방법론 개발에 관한 연구",
   topic ++ "이 청소년 발달에 미치는 장기적 영향에 관한 연구",
   topic ++ "과 관련된 윤리적 쟁점 분석 연구",
   topic ++ "의 문화간 차이 비교 연구",
   "인공지능을 활용한 " ++ topic ++ " 분석 방법 연구"]

/-- The loop of the niche-topic post-processing: keep the cleaned form of
each stripped line that is non-empty and starts with a bullet/number, when
the cleaned form is non-empty. -/
def pickedNicheLines (rawText : String) : List String :=
  (splitNl rawText).foldl
    (fun acc line0 =>
      let line := pyStrip line0
      if line ≠ "" ∧ hasBulletMark line = true then
        (if pyStrip (stripLeadMarks line) ≠ ""
          then acc ++ [pyStrip (stripLeadMarks line)] else acc)
      else acc) []

/-- Pad with the fillers to at least 5, then truncate to exactly 5. -/
def nichePad (topic : String) (picked : List String) : List String :=
  (if picked.length < 5 then
    picked ++ (defaultNicheTopics topic).take (5 - picked.length)
  else picked).take 5

/-- The whole niche-topic post-processing of `generate_paper_content`. -/
def extractNicheTopics (topic rawText : String) : List String :=
  nichePad topic (pickedNicheLines rawText)

/-! ### `generate_paper_content` and `generate_niche_content` -/

/-- The cache key `f"{topic}_{paper_info.get('title', '')[:30]}"`. -/
def paperCacheKey (topic : String) (p : Paper) : String :=
  topic ++ "_" ++ pyTake 30 (p.title.getD "")

/-- The cache file `f"paper_content_{hash(cache_key)}.json"`. -/
def paperCacheFile (env : AgentEnv) (topic : String) (p : Paper) : CacheName :=
  ("paper_content", env.pyHash (paperCacheKey topic p))

/-- The dict a successful `generate_paper_content` assembles (each LLM
section `.strip()`ed), given the joined keywords `kws` and the first keyword
`k0`. -/
def paperContentBody (env : AgentEnv) (topic : String) (p : Paper)
    (kws k0 : String) : JDict :=
  [("introduction", JVal.s (pyStrip (env.llm (introductionPrompt topic
      (p.title.getD "") (p.authors.getD "") (p.abstract.getD "") kws)))),
   ("methods", JVal.s (pyStrip (env.llm (methodsPrompt topic (p.title.getD "") kws)))),
   ("results", JVal.s (pyStrip (env.llm (resultsPrompt topic (p.title.getD "") kws)))),
   ("conclusion",
     JVal.s (pyStrip (env.llm (conclusionPrompt topic (p.title.getD "") kws)))),
   ("references", JVal.s (pyStrip (referencesBlock topic (p.authors.getD "")
      (p.year.getD "2023") (p.title.getD "") (p.source.getD "") k0))),
   ("disclaimer", JVal.s (pyStrip paperDisclaimer)),
   ("niche_topics",
     JVal.arr (extractNicheTopics topic (env.llm (nichePrompt topic (p.title.getD "") kws))))]

/-- The freshly generated paper-content dict (no cache involved).  Raises
where the source would: at `', '.join(...)` on a non-list keyword field and
at `keywords[0]` on an empty keyword list.  (In the source the IndexError
fires at the references line, after four LLM calls; the LLM oracle is a pure
function here, so raising it before the pure lets is observationally the
same.) -/
def freshPaperContent (env : AgentEnv) (topic : String) (p : Paper) :
    Except AgentErr JDict := do
  let kws ← joinKeywords p.keywords
  let k0 ← firstKeyword p.keywords
  Except.ok (paperContentBody env topic p kws k0)

/-- Write the result to the cache file (overwriting); a failed `open` raises. -/
def writeCache (env : AgentEnv) (store : CacheStore) (file : CacheName)
    (c : JDict) : Except AgentErr (JDict × CacheStore) :=
  if env.writeOk then
    Except.ok (c, fun f => if f = file then some ⟨0, some c⟩ else store f)
  else Except.error AgentErr.ioError

/-- The `try` body of `generate_paper_content`: return a parsed cached file
as-is (no age check); on a missing or unparsable file, generate and write. -/
def generatePaperBody (env : AgentEnv) (store : CacheStore) (topic : String)
    (p : Paper) : Except AgentErr (JDict × CacheStore) :=
  match store (paperCacheFile env topic p) with
  | some cf =>
    match cf.parsed with
    | some d => Except.ok (d, store)
    | none => do
      let c ← freshPaperContent env topic p
      writeCache env store (paperCacheFile env topic p) c
  | none => do
    let c ← freshPaperContent env topic p
    writeCache env store (paperCacheFile env topic p) c

/-- The canned dict of `generate_paper_content`'s `except` branch. -/
def paperErrorContent : JDict :=
  [("introduction", JVal.s "# 서론\n\n서론 생성 중 오류가 발생했습니다."),
   ("methods", JVal.s "# 연구 방법\n\n연구 방법 생성 중 오류가 발생했습니다."),
   ("results", JVal.s "# 연구 결과\n\n연구 결과 생성 중 오류가 발생했습니다."),
   ("conclusion", JVal.s "# 결론 및 제언\n\n결론 생성 중 오류가 발생했습니다."),
   ("references", JVal.s "# 참고문헌\n\n참고문헌 생성 중 오류가 발생했습니다."),
   ("disclaimer", JVal.s "# 중요 안내\n\n이 내용은 오류로 인해 정확하지 않을 수 있습니다."),
   ("niche_topics", JVal.arr ["오류로 인해 틈새 주제를 생성할 수 없습니다."])]

/-- Model of `QueryAgent.generate_paper_content`: the whole body under
`try ... except`, which converts any exception into the canned dict (and
leaves the cache directory as it was). -/
def generate_paper_content (env : AgentEnv) (store : CacheStore)
    (topic : String) (p : Paper) : JDict × CacheStore :=
  match generatePaperBody env store topic p with
  | Except.ok r => r
  | Except.error _ => (paperErrorContent, store)

/-- The introduction prompt of `generate_niche_content`. -/
def nicheIntroductionPrompt (topic nicheTopic : String) : String :=
  "\n다음 주제와 틈새주제를 바탕으로 연구 계획서의 서론을 작성해주세요. 한국어로 작성하되, 학술적인 어조를 유지해주세요.\n\n주제: "
  ++ topic ++ "\n틈새주제: " ++ nicheTopic
  ++ "\n\n서론에는 다음 내용을 포함해주세요:\n1. 틈새주제의 배경 및 중요성\n2. 기존 연구의 한계점과 이 틈새주제가 왜 중요한지\n3. 연구의 목적과 주요 연구 질문\n4. 예상되는 학문적/실용적 기여\n\n형식은 "
  ++ squo ++ "# 서론" ++ squo ++ "으로 시작하고, 2-3 단락으로 구성해주세요.\n"

/-- The methods prompt of `generate_niche_content`. -/
def nicheMethodsPrompt (topic nicheTopic : String) : String :=
  "\n다음 주제와 틈새주제를 바탕으로 연구 계획서의 연구 방법 섹션을 작성해주세요. 한국어로 작성하되, 학술적인 어조를 유지해주세요.\n\n주제: "
  ++ topic ++ "\n틈새주제: " ++ nicheTopic
  ++ "\n\n연구 방법 섹션에는 다음 내용을 포함해주세요:\n1. 연구 설계 (어떤 연구 방법론을 사용할 것인지)\n2. 자료 수집 방법 (어떤 데이터를 어떻게 수집할 것인지)\n3. 분석 방법 (데이터를 어떻게 분석할 것인지)\n4. 예상되는 한계점과 극복 방안\n\n형식은 "
  ++ squo ++ "# 연구 방법" ++ squo ++ "으로 시작하고, 각 하위 섹션은 " ++ squo ++ "## 섹션 제목"
  ++ squo ++ "으로 구분해주세요.\n"

/-- The expected-results prompt of `generate_niche_content`. -/
def nicheExpectedResultsPrompt (topic nicheTopic : String) : String :=
  "\n다음 주제와 틈새주제를 바탕으로 연구 계획서의 예상되는 연구 결과 섹션을 작성해주세요. 한국어로 작성하되, 학술적인 어조를 유지해주세요.\n\n주제: "
  ++ topic ++ "\n틈새주제: " ++ nicheTopic
  ++ "\n\n예상되는 연구 결과 섹션에는 다음 내용을 포함해주세요:\n1. 주요 예상 결과 (3가지 이상)\n2. 예상 결과의 의미와 해석\n3. 결과가 학문적/실용적으로 어떤 의미를 갖는지\n\n형식은 "
  ++ squo ++ "# 예상되는 연구 결과" ++ squo ++ "로 시작하고, 각 예상 결과는 번호를 매겨 구분해주세요.\n"

/-- The fixed disclaimer of `generate_niche_content`. -/
def nicheDisclaimer : String :=
  "\n# 중요 안내\n\n이 내용은 AI에 의해 추론된 자료로, 실제 논문이 아닙니다. 참조용으로만 활용하시기 바라며, \n실제 연구를 위해서는 추가적인 문헌 조사와 검증이 필요합니다.\n"

/-- The freshly generated niche-content dict (pure string formatting plus
three LLM calls; nothing here can raise). -/
def freshNicheContent (env : AgentEnv) (topic nicheTopic : String) : JDict :=
  [("introduction", JVal.s (pyStrip (env.llm (nicheIntroductionPrompt topic nicheTopic)))),
   ("methods", JVal.s (pyStrip (env.llm (nicheMethodsPrompt topic nicheTopic)))),
   ("expected_results",
     JVal.s (pyStrip (env.llm (nicheExpectedResultsPrompt topic nicheTopic)))),
   ("disclaimer", JVal.s (pyStrip nicheDisclaimer))]

/-- The cache file `f"niche_content_{hash(topic + '_' + niche_topic[:30])}.json"`. -/
def nicheCacheFile (env : AgentEnv) (topic nicheTopic : String) : CacheName :=
  ("niche_content", env.pyHash (topic ++ "_" ++ pyTake 30 nicheTopic))

/-- The `try` body of `generate_niche_content`. -/
def generateNicheBody (env : AgentEnv) (store : CacheStore)
    (topic nicheTopic : String) : Except AgentErr (JDict × CacheStore) :=
  match store (nicheCacheFile env topic nicheTopic) with
  | some cf =>
    match cf.parsed with
    | some d => Except.ok (d, store)
    | none => writeCache env store (nicheCacheFile env topic nicheTopic)
        (freshNicheContent env topic nicheTopic)
  | none => writeCache env store (nicheCacheFile env topic nicheTopic)
      (freshNicheContent env topic nicheTopic)

/-- The canned dict of `generate_niche_content`'s `except` branch. -/
def nicheErrorContent : JDict :=
  [("introduction", JVal.s "# 서론\n\n서론 생성 중 오류가 발생했습니다."),
   ("methods", JVal.s "# 연구 방법\n\n연구 방법 생성 중 오류가 발생했습니다."),
   ("expected_results", JVal.s "# 예상되는 연구 결과\n\n예상 결과 생성 중 오류가 발생했습니다."),
   ("disclaimer", JVal.s "# 중요 안내\n\n이 내용은 오류로 인해 정확하지 않을 수 있습니다.")]

/-- Model of `QueryAgent.generate_niche_content` under its `try ... except`. -/
def generate_niche_content (env : AgentEnv) (store : CacheStore)
    (topic nicheTopic : String) : JDict × CacheStore :=
  match generateNicheBody env store topic nicheTopic with
  | Except.ok r => r
  | Except.error _ => (nicheErrorContent, store)

/-- A test environment: silent LLM, constant hash, cache writes succeed. -/
def envT : AgentEnv := { llm := fun x => "", pyHash := fun x => 0, writeOk := true }

/-- A test environment whose cache writes fail. -/
def envW : AgentEnv := { llm := fun x => "", pyHash := fun x => 0, writeOk := false }

/-- The empty cache directory. -/
def storeEmpty : CacheStore := fun x => none

/-- A cache directory holding one stale (999-hour-old) parsed entry for the
paper-content file of `envT`. -/
def storeStale : CacheStore :=
  fun f => if f = ("paper_content", (0 : Int)) then
    some ⟨999, some [("x", JVal.s "y")]⟩ else none

/-! ### Lemmas about `bump`, `wordFreq`, `insertDesc` -/

theorem bump_keys_mem (acc : List (String × Nat)) (w : String)
    (h : w ∈ acc.map Prod.fst) : (bump acc w).map Prod.fst = acc.map Prod.fst := by
  induction acc with
  | nil => simp at h
  | cons p rest ih =>
    obtain ⟨x, n⟩ := p
    by_cases hx : x = w
    · simp [bump, hx]
    · simp only [List.map_cons, List.mem_cons] at h
      rcases h with h | h
      · exact absurd h.symm hx
      · simp [bump, hx, ih h]

theorem bump_keys_new (acc : List (String × Nat)) (w : String)
    (h : w ∉ acc.map Prod.fst) :
    (bump acc w).map Prod.fst = acc.map Prod.fst ++ [w] := by
  induction acc with
  | nil => simp [bump]
  | cons p rest ih =>
    obtain ⟨x, n⟩ := p
    simp only [List.map_cons, List.mem_cons, not_or] at h
    have hx : x ≠ w := fun hxw => h.1 hxw.symm
    simp [bump, hx, ih h.2]

theorem foldl_bump_keys_mem (ws : List String) :
    ∀ (acc : List (String × Nat)) (w : String),
      w ∈ (ws.foldl bump acc).map Prod.fst ↔ w ∈ acc.map Prod.fst ∨ w ∈ ws := by
  induction ws with
  | nil => intro acc w; simp
  | cons v vs ih =>
    intro acc w
    rw [List.foldl_cons, ih]
    by_cases hv : v ∈ acc.map Prod.fst
    · rw [bump_keys_mem acc v hv]
      constructor
      · rintro (h | h)
        · exact Or.inl h
        · exact Or.inr (List.mem_cons_of_mem v h)
      · rintro (h | h)
        · exact Or.inl h
        · rcases List.mem_cons.mp h with h | h
          · exact Or.inl (h ▸ hv)
          · exact Or.inr h
    · rw [bump_keys_new acc v hv]
      simp only [List.mem_append, List.mem_singleton, List.mem_cons]
      tauto

theorem foldl_bump_keys_nodup (ws : List String) :
    ∀ (acc : List (String × Nat)), (acc.map Prod.fst).Nodup →
      ((ws.foldl bump acc).map Prod.fst).Nodup := by
  induction ws with
  | nil => intro acc h; simpa using h
  | cons v vs ih =>
    intro acc h
    rw [List.foldl_cons]
    by_cases hv : v ∈ acc.map Prod.fst
    · exact ih _ (by rwa [bump_keys_mem acc v hv])
    · refine ih _ ?_
      rw [bump_keys_new acc v hv]
      refine h.append (List.nodup_singleton v) ?_
      intro a ha hmem
      rw [List.mem_singleton] at hmem
      exact hv (hmem ▸ ha)

theorem insertDesc_length (x : String × Nat) (l : List (String × Nat)) :
    (insertDesc x l).length = l.length + 1 := by
  induction l with
  | nil => rfl
  | cons y ys ih =>
    by_cases h : y.2 < x.2 <;> simp [insertDesc, h, ih]

theorem sortFreqDesc_length_aux (l : List (String × Nat)) :
    ∀ acc : List (String × Nat),
      (l.foldl (fun acc x => insertDesc x acc) acc).length = acc.length + l.length := by
  induction l with
  | nil => intro acc; simp
  | cons x xs ih =>
    intro acc
    rw [List.foldl_cons, ih, insertDesc_length]
    simp only [List.length_cons]
    omega

theorem sortFreqDesc_length (l : List (String × Nat)) :
    (sortFreqDesc l).length = l.length := by
  simpa using sortFreqDesc_length_aux l []

/-- Claim C1: keyword extraction is deterministic, the `word_freq` keys are
exactly the distinct qualifying tokens (lowercased, filtered, length > 1), and
whenever `num` is at most that distinct count plus 8 (the generic pool size),
exactly `num` keywords are returned. -/
theorem extract_keywords_deterministic_exact_count (text : String) (num : Nat) :
    extract_keywords text num = extract_keywords text num
    ∧ (distinctQualifying text).Nodup
    ∧ (∀ w, w ∈ distinctQualifying text ↔ w ∈ qualifyingTokens text)
    ∧ (num ≤ (distinctQualifying text).length + 8 →
        (extract_keywords text num).length = num) := by
  refine ⟨rfl, ?_, ?_, ?_⟩
  · exact foldl_bump_keys_nodup _ [] (by simp)
  · intro w
    unfold distinctQualifying wordFreq
    rw [foldl_bump_keys_mem]
    simp
  · intro h
    unfold extract_keywords padGeneric
    have hlen : (distinctQualifying text).length = (wordFreq text).length := by
      simp [distinctQualifying]
    rw [hlen] at h
    have hsort : (sortFreqDesc (wordFreq text)).length = (wordFreq text).length :=
      sortFreqDesc_length _
    have htake : (((sortFreqDesc (wordFreq text)).take num).map Prod.fst).length
        = min num (wordFreq text).length := by simp [hsort]
    rw [htake]
    by_cases hcase : num ≤ (wordFreq text).length
    · have hmin : min num (wordFreq text).length = num := Nat.min_eq_left hcase
      rw [hmin, if_neg (Nat.lt_irrefl num), htake, hmin]
    · push_neg at hcase
      have hmin : min num (wordFreq text).length = (wordFreq text).length :=
        Nat.min_eq_right (Nat.le_of_lt hcase)
      rw [hmin, if_pos hcase]
      have hgen : (genericKeywords.take (num - (wordFreq text).length)).length
          = num - (wordFreq text).length := by
        rw [List.length_take]
        have h8 : genericKeywords.length = 8 := by decide
        rw [h8]
        omega
      rw [List.length_append, htake, hmin, hgen]
      omega

/-- Witness for C1 at a concrete input: 2 distinct qualifying tokens, request 3. -/
theorem extract_keywords_deterministic_exact_count_witness :
    3 ≤ (distinctQualifying "hello world hello").length + 8
    ∧ (extract_keywords "hello world hello" 3).length = 3 :=
  ⟨by decide,
   (extract_keywords_deterministic_exact_count "hello world hello" 3).2.2.2 (by decide)⟩

/-! ### Lemmas about `mergeDedupGo`; claim C2 -/

theorem mergeDedupGo_kept_not_seen :
    ∀ (ps : List NPaper) (seen : List String) (t : String),
      t ∈ (mergeDedupGo seen ps).1.map lowTitle → t ∉ seen := by
  intro ps
  induction ps with
  | nil => intro seen t ht; simp [mergeDedupGo] at ht
  | cons p ps ih =>
    intro seen t ht
    by_cases hp : lowTitle p ∈ seen
    · rw [mergeDedupGo, if_pos hp] at ht
      exact ih seen t ht
    · rw [mergeDedupGo, if_neg hp] at ht
      simp only [List.map_cons, List.mem_cons] at ht
      rcases ht with ht | ht
      · exact ht ▸ hp
      · intro hseen
        exact ih _ t ht (List.mem_cons_of_mem _ hseen)

theorem mergeDedupGo_titles_nodup :
    ∀ (ps : List NPaper) (seen : List String),
      ((mergeDedupGo seen ps).1.map lowTitle).Nodup := by
  intro ps
  induction ps with
  | nil => intro seen; simp [mergeDedupGo]
  | cons p ps ih =>
    intro seen
    by_cases hp : lowTitle p ∈ seen
    · rw [mergeDedupGo, if_pos hp]; exact ih seen
    · rw [mergeDedupGo, if_neg hp]
      simp only [List.map_cons, List.nodup_cons]
      refine ⟨?_, ih _⟩
      intro hmem
      exact mergeDedupGo_kept_not_seen ps _ _ hmem (List.mem_cons_self _ _)

theorem mergeDedupGo_kept_mem :
    ∀ (ps : List NPaper) (seen : List String) (o : NPaper),
      o ∈ (mergeDedupGo seen ps).1 → o ∈ ps := by
  intro ps
  induction ps with
  | nil => intro seen o ho; simp [mergeDedupGo] at ho
  | cons p ps ih =>
    intro seen o ho
    by_cases hp : lowTitle p ∈ seen
    · rw [mergeDedupGo, if_pos hp] at ho
      exact List.mem_cons_of_mem _ (ih seen o ho)
    · rw [mergeDedupGo, if_neg hp] at ho
      rcases List.mem_cons.mp ho with h | h
      · exact h ▸ List.mem_cons_self _ _
      · exact List.mem_cons_of_mem _ (ih _ o h)

theorem mergeDedupGo_seen_mem :
    ∀ (ps : List NPaper) (seen : List String) (t : String),
      (t ∈ seen ∨ ∃ p ∈ ps, lowTitle p = t) → t ∈ (mergeDedupGo seen ps).2 := by
  intro ps
  induction ps with
  | nil =>
    intro seen t ht
    rcases ht with h | ⟨p, hp, _⟩
    · simpa [mergeDedupGo] using h
    · simp at hp
  | cons p ps ih =>
    intro seen t ht
    by_cases hp : lowTitle p ∈ seen
    · rw [mergeDedupGo, if_pos hp]
      refine ih seen t ?_
      rcases ht with h | ⟨q, hq, hqt⟩
      · exact Or.inl h
      · rcases List.mem_cons.mp hq with h | h
        · exact Or.inl (by rw [← hqt, h]; exact hp)
        · exact Or.inr ⟨q, h, hqt⟩
    · rw [mergeDedupGo, if_neg hp]
      refine ih _ t ?_
      rcases ht with h | ⟨q, hq, hqt⟩
      · exact Or.inl (List.mem_cons_of_mem _ h)
      · rcases List.mem_cons.mp hq with h | h
        · exact Or.inl (by rw [← hqt, h]; exact List.mem_cons_self _ _)
        · exact Or.inr ⟨q, h, hqt⟩

/-- Claim C2: `merge_search_results` never keeps two records with the same
lowercased normalized title, and any kept record whose lowercased title is
shared with some external input record is itself a normalized external
record (external wins ties against internal). -/
theorem merge_search_results_dedup_external_wins (nowYear : String)
    (internal external : List Paper) :
    ((merge_search_results nowYear internal external).map lowTitle).Nodup
    ∧ ∀ o ∈ merge_search_results nowYear internal external,
        (∃ e ∈ external, lowTitle (normalize_paper_info nowYear e) = lowTitle o) →
        ∃ e ∈ external, normalize_paper_info nowYear e = o := by
  unfold merge_search_results
  set ne := external.map (normalize_paper_info nowYear) with hne
  set ni := internal.map (normalize_paper_info nowYear) with hni
  set r1 := mergeDedupGo [] ne with hr1
  set r2 := mergeDedupGo r1.2 ni with hr2
  have pass1_seen : ∀ t, (∃ p ∈ ne, lowTitle p = t) → t ∈ r1.2 := by
    intro t h
    exact mergeDedupGo_seen_mem ne [] t (Or.inr h)
  constructor
  · rw [List.map_append]
    refine (mergeDedupGo_titles_nodup ne []).append (mergeDedupGo_titles_nodup ni r1.2) ?_
    intro t ht1 ht2
    have h1 : t ∈ r1.2 := by
      simp only [List.mem_map] at ht1
      obtain ⟨o, ho, hot⟩ := ht1
      exact pass1_seen t ⟨o, mergeDedupGo_kept_mem ne [] o ho, hot⟩
    exact mergeDedupGo_kept_not_seen ni r1.2 t ht2 h1
  · intro o ho hshare
    obtain ⟨e, he, het⟩ := hshare
    rcases List.mem_append.mp ho with h | h
    · have : o ∈ ne := mergeDedupGo_kept_mem ne [] o h
      rw [hne] at this
      obtain ⟨e2, he2, he2o⟩ := List.mem_map.mp this
      exact ⟨e2, he2, he2o⟩
    · exfalso
      have hseen : lowTitle o ∈ r1.2 :=
        pass1_seen _ ⟨normalize_paper_info nowYear e, List.mem_map_of_mem _ he, het⟩
      exact mergeDedupGo_kept_not_seen ni r1.2 (lowTitle o)
        (List.mem_map_of_mem lowTitle h) hseen

/-- Witness for C2 at concrete records: external `peW` ("AB") and internal
`piW` ("ab") share the lowercased title "ab"; the kept record is the
normalized external one. -/
theorem merge_search_results_dedup_external_wins_witness :
    (normalize_paper_info "2025" peW ∈ merge_search_results "2025" [piW] [peW])
    ∧ (∃ e ∈ [peW], lowTitle (normalize_paper_info "2025" e)
        = lowTitle (normalize_paper_info "2025" peW))
    ∧ ∃ e ∈ [peW], normalize_paper_info "2025" e = normalize_paper_info "2025" peW :=
  ⟨by decide, ⟨peW, by decide, rfl⟩,
   (merge_search_results_dedup_external_wins "2025" [piW] [peW]).2
     (normalize_paper_info "2025" peW) (by decide) ⟨peW, by decide, rfl⟩⟩

/-- Counterexample to claim C6 as stated: `normalize_paper_info` is not
idempotent.  On `paperC6` (title `"&lt;b&gt;hi"`) the first pass decodes the
entities to `"<b>hi"`; the second pass then strips `<b>` as an HTML tag,
yielding title `"hi"` and different keywords. -/
theorem normalize_paper_info_not_idempotent :
    normalize_paper_info "2025" ((normalize_paper_info "2025" paperC6).toPaper)
      ≠ normalize_paper_info "2025" paperC6 := by decide

/-! ### Character-level lemmas -/

theorem char_eq_of_toNat {a b : Char} (h : a.toNat = b.toNat) : a = b :=
  Char.ext (UInt32.ext h)

theorem toNat_pyLowerChar (c : Char) :
    (pyLowerChar c).toNat =
      if 65 ≤ c.toNat ∧ c.toNat ≤ 90 then c.toNat + 32 else c.toNat := by
  unfold pyLowerChar
  split
  · next h =>
    unfold Char.ofNat
    split
    · rfl
    · next hn =>
      exact absurd (Or.inl (by omega) : (c.toNat + 32).isValidChar) hn
  · rfl

theorem pyLowerChar_idem (c : Char) :
    pyLowerChar (pyLowerChar c) = pyLowerChar c := by
  apply char_eq_of_toNat
  rw [toNat_pyLowerChar, toNat_pyLowerChar]
  split_ifs <;> omega

theorem pyWordChar_pyLowerChar (c : Char) (h : pyWordChar c = true) :
    pyWordChar (pyLowerChar c) = true := by
  simp only [pyWordChar, isAsciiAlpha, isAsciiDigit, isHangulSyl, Bool.or_eq_true,
    Bool.and_eq_true, beq_iff_eq, decide_eq_true_eq] at h ⊢
  rw [toNat_pyLowerChar]
  split
  · next hc => omega
  · next hc => omega

theorem pyWordChar_not_ws (c : Char) (h : pyWordChar c = true) :
    pyWsChar c = false := by
  simp only [pyWordChar, isAsciiAlpha, isAsciiDigit, isHangulSyl, Bool.or_eq_true,
    Bool.and_eq_true, beq_iff_eq, decide_eq_true_eq] at h
  simp only [pyWsChar, Bool.or_eq_false_iff, beq_eq_false_iff_ne, ne_eq]
  omega

theorem isAsciiDigit_not_ws (c : Char) (h : isAsciiDigit c = true) :
    pyWsChar c = false := by
  simp only [isAsciiDigit, Bool.and_eq_true, decide_eq_true_eq] at h
  simp only [pyWsChar, Bool.or_eq_false_iff, beq_eq_false_iff_ne, ne_eq]
  omega

theorem pyLowerChar_fixed_of_lowered (c : Char) :
    pyLowerChar (pyLowerChar c) = pyLowerChar c := pyLowerChar_idem c

/-! ### `stripTagsGo` and `unescapeGo` are the identity without `<` / `&` -/

theorem stripTagsGo_eq_self (cs : List Char) (h : ∀ c ∈ cs, c ≠ '<') :
    stripTagsGo cs none = cs := by
  induction cs with
  | nil => rfl
  | cons c cs ih =>
    have hc : c ≠ '<' := h c (List.mem_cons_self _ _)
    rw [stripTagsGo, if_neg hc, ih (fun d hd => h d (List.mem_cons_of_mem _ hd))]

set_option maxHeartbeats 2000000 in
theorem unescapeGo_cons_ne (c : Char) (cs : List Char) (hc : c ≠ '&') :
    unescapeGo (c :: cs) = c :: unescapeGo cs := by
  rw [unescapeGo.eq_def]
  simp only [if_neg hc]

theorem unescapeGo_eq_self (cs : List Char) (h : ∀ c ∈ cs, c ≠ '&') :
    unescapeGo cs = cs := by
  induction cs with
  | nil => rfl
  | cons c cs ih =>
    have hc : c ≠ '&' := h c (List.mem_cons_self _ _)
    rw [unescapeGo_cons_ne c cs hc, ih (fun d hd => h d (List.mem_cons_of_mem _ hd))]

/-! ### Whitespace collapsing and stripping lemmas -/

theorem collapseWs_mem :
    ∀ (cs : List Char), ∀ c ∈ collapseWs cs,
      c = ' ' ∨ (c ∈ cs ∧ pyWsChar c = false) := by
  intro cs
  induction cs with
  | nil => intro c hc; simp [collapseWs] at hc
  | cons a cs ih =>
    cases cs with
    | nil =>
      intro c hc
      by_cases ha : pyWsChar a = true
      · rw [collapseWs, if_pos ha] at hc
        rcases List.mem_singleton.mp hc with h
        exact Or.inl h
      · rw [collapseWs, if_neg ha] at hc
        rcases List.mem_singleton.mp hc with h
        exact Or.inr ⟨h ▸ List.mem_singleton_self a, h ▸ (Bool.not_eq_true _).mp ha⟩
    | cons d rest =>
      intro c hc
      by_cases had : (pyWsChar a && pyWsChar d) = true
      · rw [collapseWs, if_pos had] at hc
        rcases ih c hc with h | ⟨h1, h2⟩
        · exact Or.inl h
        · exact Or.inr ⟨List.mem_cons_of_mem _ h1, h2⟩
      · rw [collapseWs, if_neg had] at hc
        rcases List.mem_cons.mp hc with h | h
        · by_cases ha : pyWsChar a = true
          · rw [if_pos ha] at h; exact Or.inl h
          · rw [if_neg ha] at h
            exact Or.inr ⟨h ▸ List.mem_cons_self _ _, h ▸ (Bool.not_eq_true _).mp ha⟩
        · rcases ih c h with h2 | ⟨h21, h22⟩
          · exact Or.inl h2
          · exact Or.inr ⟨List.mem_cons_of_mem _ h21, h22⟩

theorem collapseWs_cons_not_ws (d : Char) (rest : List Char)
    (hd : pyWsChar d = false) : collapseWs (d :: rest) = d :: collapseWs rest := by
  cases rest with
  | nil => simp [collapseWs, hd]
  | cons e rest => simp [collapseWs, hd]

theorem noAdjWs_tail (c : Char) (l : List Char) (h : noAdjWs (c :: l) = true) :
    noAdjWs l = true := by
  cases l with
  | nil => rfl
  | cons d t =>
    rw [noAdjWs, Bool.and_eq_true] at h
    exact h.2

theorem noAdjWs_cons_not_ws (c : Char) (l : List Char) (hc : pyWsChar c = false)
    (hl : noAdjWs l = true) : noAdjWs (c :: l) = true := by
  cases l with
  | nil => rfl
  | cons d t =>
    rw [noAdjWs, Bool.and_eq_true]
    exact ⟨by simp [hc], hl⟩

theorem collapseWs_noAdj : ∀ cs : List Char, noAdjWs (collapseWs cs) = true := by
  intro cs
  induction cs with
  | nil => rfl
  | cons a cs ih =>
    cases cs with
    | nil =>
      by_cases ha : pyWsChar a = true
      · rw [collapseWs, if_pos ha]; rfl
      · rw [collapseWs, if_neg ha]; rfl
    | cons d rest =>
      by_cases had : (pyWsChar a && pyWsChar d) = true
      · rw [collapseWs, if_pos had]; exact ih
      · rw [collapseWs, if_neg had]
        by_cases hd : pyWsChar d = true
        · have ha : pyWsChar a = false := by
            rcases Bool.and_eq_false_iff.mp ((Bool.not_eq_true _).mp had) with h | h
            · exact h
            · exact absurd hd (by simp [h])
          rw [if_neg (by simp [ha])]
          exact noAdjWs_cons_not_ws a _ ha ih
        · have hd' : pyWsChar d = false := (Bool.not_eq_true _).mp hd
          rw [collapseWs_cons_not_ws d rest hd'] at ih ⊢
          cases h : pyWsChar a
          · rw [if_neg (by simp [h])]
            exact noAdjWs_cons_not_ws a _ h ih
          · rw [if_pos (by simp [h]), noAdjWs, Bool.and_eq_true]
            exact ⟨by simp [hd'], ih⟩

theorem collapseWs_allWsSpace (cs : List Char) : allWsSpace (collapseWs cs) = true := by
  rw [allWsSpace, List.all_eq_true]
  intro x hx
  rcases collapseWs_mem cs x hx with h | ⟨_, hws⟩
  · subst h; decide
  · simp [hws]

theorem collapseWs_eq_self (cs : List Char) (h1 : noAdjWs cs = true)
    (h2 : allWsSpace cs = true) : collapseWs cs = cs := by
  induction cs with
  | nil => rfl
  | cons a cs ih =>
    have ha2 : pyWsChar a = true → a = ' ' := by
      intro hws
      rw [allWsSpace, List.all_eq_true] at h2
      have := h2 a (List.mem_cons_self _ _)
      rw [hws] at this
      simp only [Bool.not_true, Bool.false_or, beq_iff_eq] at this
      exact char_eq_of_toNat (by simpa using this)
    cases cs with
    | nil =>
      by_cases ha : pyWsChar a = true
      · rw [collapseWs, if_pos ha, ha2 ha]
      · rw [collapseWs, if_neg ha]
    | cons d rest =>
      have had : (pyWsChar a && pyWsChar d) = false := by
        cases hb : (pyWsChar a && pyWsChar d) with
        | false => rfl
        | true => rw [noAdjWs, hb] at h1; simp at h1
      have htail : collapseWs (d :: rest) = d :: rest := by
        apply ih (noAdjWs_tail _ _ h1)
        rw [allWsSpace, List.all_eq_true] at h2 ⊢
        exact fun x hx => h2 x (List.mem_cons_of_mem _ hx)
      rw [collapseWs, if_neg (by simp [had]), htail]
      by_cases ha : pyWsChar a = true
      · rw [if_pos ha, ha2 ha]
      · rw [if_neg ha]

theorem dropWhile_head_not {p : Char → Bool} {l : List Char} {c : Char}
    {t : List Char} (h : l.dropWhile p = c :: t) : p c = false := by
  have hh := List.head?_dropWhile_not p l
  rw [h] at hh
  simpa using hh

theorem dropWhile_pyStripL (cs : List Char) :
    (pyStripL cs).dropWhile pyWsChar = pyStripL cs := by
  unfold pyStripL
  cases hwr : (((cs.dropWhile pyWsChar).reverse.dropWhile pyWsChar)).reverse with
  | nil => simp
  | cons c t =>
    have hlast : ((cs.dropWhile pyWsChar).reverse.dropWhile pyWsChar).getLast? = some c := by
      rw [← List.head?_reverse, hwr]; rfl
    obtain ⟨t0, ht0⟩ := List.dropWhile_suffix (l := (cs.dropWhile pyWsChar).reverse) pyWsChar
    have hne : (cs.dropWhile pyWsChar).reverse.dropWhile pyWsChar ≠ [] := by
      intro hnil
      rw [hnil] at hwr
      simp at hwr
    have hlast2 : (cs.dropWhile pyWsChar).reverse.getLast? = some c := by
      rw [← ht0, List.getLast?_append, hlast]
      rfl
    have hhead : (cs.dropWhile pyWsChar).head? = some c := by
      rw [← List.getLast?_reverse, hlast2]
    have hc : pyWsChar c = false := by
      cases hdw : cs.dropWhile pyWsChar with
      | nil => rw [hdw] at hhead; simp at hhead
      | cons x xs =>
        rw [hdw] at hhead
        have : x = c := by simpa using hhead
        exact this ▸ dropWhile_head_not hdw
    rw [List.dropWhile_cons, if_neg (by simp [hc])]

theorem pyStripL_idem (cs : List Char) : pyStripL (pyStripL cs) = pyStripL cs := by
  conv_lhs => rw [pyStripL]
  rw [dropWhile_pyStripL]
  conv_lhs => rw [pyStripL]
  rw [List.reverse_reverse, List.dropWhile_idempotent]
  rfl

theorem mem_pyStripL (cs : List Char) (c : Char) (h : c ∈ pyStripL cs) : c ∈ cs := by
  unfold pyStripL at h
  rw [List.mem_reverse] at h
  have h2 := (List.dropWhile_suffix pyWsChar).subset h
  rw [List.mem_reverse] at h2
  exact (List.dropWhile_suffix pyWsChar).subset h2

theorem dropWhile_eq_self_of_no_ws (cs : List Char)
    (h : ∀ c ∈ cs, pyWsChar c = false) : cs.dropWhile pyWsChar = cs := by
  cases cs with
  | nil => rfl
  | cons c t =>
    rw [List.dropWhile_cons, if_neg (by simp [h c (List.mem_cons_self _ _)])]

theorem pyStripL_eq_self_of_no_ws (cs : List Char)
    (h : ∀ c ∈ cs, pyWsChar c = false) : pyStripL cs = cs := by
  unfold pyStripL
  rw [dropWhile_eq_self_of_no_ws cs h,
    dropWhile_eq_self_of_no_ws cs.reverse (fun c hc => h c (List.mem_reverse.mp hc)),
    List.reverse_reverse]

theorem noAdjWs_iff_chain (l : List Char) :
    noAdjWs l = true ↔
      l.Chain' (fun a b => ¬(pyWsChar a = true ∧ pyWsChar b = true)) := by
  induction l with
  | nil => simp [noAdjWs]
  | cons c t ih =>
    cases t with
    | nil => simp [noAdjWs]
    | cons d t2 =>
      rw [noAdjWs, Bool.and_eq_true, List.chain'_cons, ih]
      constructor
      · rintro ⟨h1, h2⟩
        refine ⟨?_, h2⟩
        rintro ⟨ha, hb⟩
        rw [ha, hb] at h1
        simp at h1
      · rintro ⟨h1, h2⟩
        refine ⟨?_, h2⟩
        cases ha : pyWsChar c
        · simp
        · cases hb : pyWsChar d
          · simp
          · exact absurd ⟨ha, hb⟩ h1

theorem noAdjWs_reverse (l : List Char) : noAdjWs l.reverse = noAdjWs l := by
  rw [Bool.eq_iff_iff, noAdjWs_iff_chain, noAdjWs_iff_chain, List.chain'_reverse]
  constructor
  · exact fun h => h.imp (fun a b hab hba => hab ⟨hba.2, hba.1⟩)
  · exact fun h => h.imp (fun a b hab hba => hab ⟨hba.2, hba.1⟩)

theorem noAdjWs_dropWhile (l : List Char) (h : noAdjWs l = true) :
    noAdjWs (l.dropWhile pyWsChar) = true := by
  induction l with
  | nil => exact h
  | cons c t ih =>
    rw [List.dropWhile_cons]
    by_cases hc : pyWsChar c = true
    · rw [if_pos (by simp [hc])]
      exact ih (noAdjWs_tail _ _ h)
    · rw [if_neg (by simpa using hc)]
      exact h

theorem noAdjWs_pyStripL (cs : List Char) (h : noAdjWs cs = true) :
    noAdjWs (pyStripL cs) = true := by
  unfold pyStripL
  rw [noAdjWs_reverse]
  exact noAdjWs_dropWhile _ (by rw [noAdjWs_reverse]; exact noAdjWs_dropWhile _ h)

theorem clean_text_idem (s : String) (h : ∀ c ∈ s.data, c ≠ '<' ∧ c ≠ '&') :
    clean_text (clean_text s) = clean_text s := by
  by_cases hs : s = ""
  · subst hs; rfl
  · have hstrip : stripTagsGo s.data none = s.data :=
      stripTagsGo_eq_self _ (fun c hc => (h c hc).1)
    have hune : unescapeGo s.data = s.data :=
      unescapeGo_eq_self _ (fun c hc => (h c hc).2)
    have hct : clean_text s = String.mk (pyStripL (collapseWs s.data)) := by
      unfold clean_text
      rw [if_neg hs, hstrip, hune]
    rw [hct]
    by_cases hRe : String.mk (pyStripL (collapseWs s.data)) = ""
    · rw [hRe]
      rfl
    · have hmemR : ∀ c ∈ pyStripL (collapseWs s.data), c ≠ '<' ∧ c ≠ '&' := by
        intro c hc
        have h1 : c ∈ collapseWs s.data := mem_pyStripL _ c hc
        rcases collapseWs_mem _ c h1 with h2 | ⟨h2, _⟩
        · subst h2
          exact ⟨by decide, by decide⟩
        · exact h c h2
      have hstrip2 : stripTagsGo (pyStripL (collapseWs s.data)) none
          = pyStripL (collapseWs s.data) :=
        stripTagsGo_eq_self _ (fun c hc => (hmemR c hc).1)
      have hune2 : unescapeGo (pyStripL (collapseWs s.data))
          = pyStripL (collapseWs s.data) :=
        unescapeGo_eq_self _ (fun c hc => (hmemR c hc).2)
      have hcol : collapseWs (pyStripL (collapseWs s.data))
          = pyStripL (collapseWs s.data) := by
        apply collapseWs_eq_self
        · exact noAdjWs_pyStripL _ (collapseWs_noAdj _)
        · rw [allWsSpace, List.all_eq_true]
          intro x hx
          have hall := collapseWs_allWsSpace s.data
          rw [allWsSpace, List.all_eq_true] at hall
          exact hall x (mem_pyStripL _ x hx)
      unfold clean_text
      rw [if_neg hRe]
      show String.mk (pyStripL (collapseWs (unescapeGo
        (stripTagsGo (pyStripL (collapseWs s.data)) none)))) = _
      rw [hstrip2, hune2, hcol, pyStripL_idem]

/-! ### Keyword-cleaning lemmas -/

theorem cleanKeyword_of_wordchars (k : String)
    (h : ∀ c ∈ k.data, pyWordChar c = true) : cleanKeyword k = pyLower k := by
  unfold cleanKeyword pyLower
  rw [pyStripL_eq_self_of_no_ws _ (fun c hc => pyWordChar_not_ws c (h c hc))]
  congr 1
  apply List.filter_eq_self.mpr
  intro c hc
  obtain ⟨d, hd, hdc⟩ := List.mem_map.mp hc
  have : pyWordChar c = true := hdc ▸ pyWordChar_pyLowerChar d (h d hd)
  simp [keepKwChar, this]

theorem pyLower_idem (s : String) : pyLower (pyLower s) = pyLower s := by
  unfold pyLower
  apply String.ext
  show ((s.data.map pyLowerChar).map pyLowerChar) = s.data.map pyLowerChar
  rw [List.map_map]
  apply List.map_congr_left
  intro a _
  exact pyLowerChar_idem a

theorem pyLower_data_wordchars (k : String)
    (h : ∀ c ∈ k.data, pyWordChar c = true) :
    ∀ c ∈ (pyLower k).data, pyWordChar c = true := by
  intro c hc
  obtain ⟨d, hd, hdc⟩ := List.mem_map.mp hc
  exact hdc ▸ pyWordChar_pyLowerChar d (h d hd)

theorem cleanKeyword_idem_of_wordchars (k : String)
    (h : ∀ c ∈ k.data, pyWordChar c = true) :
    cleanKeyword (cleanKeyword k) = cleanKeyword k := by
  rw [cleanKeyword_of_wordchars k h,
    cleanKeyword_of_wordchars _ (pyLower_data_wordchars k h), pyLower_idem]

theorem pyLower_eq_self_of_fixed (x : String)
    (h : ∀ c ∈ x.data, pyLowerChar c = c) : pyLower x = x := by
  unfold pyLower
  apply String.ext
  show x.data.map pyLowerChar = x.data
  rw [List.map_congr_left h]
  simp

theorem cleanKeywordsGo_mem :
    ∀ (ks acc : List String), ∀ x ∈ cleanKeywordsGo acc ks,
      x ∈ acc ∨ ∃ k ∈ ks, x = cleanKeyword k := by
  intro ks
  induction ks with
  | nil => intro acc x hx; exact Or.inl hx
  | cons k ks ih =>
    intro acc x hx
    rw [cleanKeywordsGo] at hx
    split at hx
    · rcases ih _ x hx with h | ⟨k2, hk2, hk2x⟩
      · rcases List.mem_append.mp h with h2 | h2
        · exact Or.inl h2
        · exact Or.inr ⟨k, List.mem_cons_self _ _, (List.mem_singleton.mp h2)⟩
      · exact Or.inr ⟨k2, List.mem_cons_of_mem _ hk2, hk2x⟩
    · rcases ih _ x hx with h | ⟨k2, hk2, hk2x⟩
      · exact Or.inl h
      · exact Or.inr ⟨k2, List.mem_cons_of_mem _ hk2, hk2x⟩

theorem cleanKeywordsGo_props :
    ∀ (ks acc : List String), acc.Nodup → (∀ x ∈ acc, x ≠ "") →
      (cleanKeywordsGo acc ks).Nodup ∧ ∀ x ∈ cleanKeywordsGo acc ks, x ≠ "" := by
  intro ks
  induction ks with
  | nil => intro acc h1 h2; exact ⟨h1, h2⟩
  | cons k ks ih =>
    intro acc h1 h2
    rw [cleanKeywordsGo]
    split
    · next hcond =>
      refine ih _ ?_ ?_
      · refine h1.append (List.nodup_singleton _) ?_
        intro a ha hmem
        rw [List.mem_singleton] at hmem
        exact hcond.2 (hmem ▸ ha)
      · intro x hx
        rcases List.mem_append.mp hx with h | h
        · exact h2 x h
        · rw [List.mem_singleton.mp h]
          exact hcond.1
    · exact ih _ h1 h2

theorem cleanKeywordsGo_fixed :
    ∀ (l acc : List String), l.Nodup →
      (∀ x ∈ l, cleanKeyword x = x ∧ x ≠ "" ∧ x ∉ acc) →
      cleanKeywordsGo acc l = acc ++ l := by
  intro l
  induction l with
  | nil => intro acc _ _; simp [cleanKeywordsGo]
  | cons x xs ih =>
    intro acc hnd h
    obtain ⟨hx1, hx2, hx3⟩ := h x (List.mem_cons_self _ _)
    rw [cleanKeywordsGo, if_pos (by rw [hx1]; exact ⟨hx2, hx3⟩)]
    rw [hx1, ih (acc ++ [x]) (List.nodup_cons.mp hnd).2 ?_]
    · simp
    · intro y hy
      obtain ⟨hy1, hy2, hy3⟩ := h y (List.mem_cons_of_mem _ hy)
      refine ⟨hy1, hy2, ?_⟩
      intro hmem
      rcases List.mem_append.mp hmem with h2 | h2
      · exact hy3 h2
      · rw [List.mem_singleton.mp h2] at hy
        exact (List.nodup_cons.mp hnd).1 hy

theorem clean_keywords_idem_of_wordchars (ks : List String)
    (h : ∀ k ∈ ks, ∀ c ∈ k.data, pyWordChar c = true) :
    clean_keywords (clean_keywords ks) = clean_keywords ks := by
  unfold clean_keywords
  obtain ⟨hnd, hne⟩ := cleanKeywordsGo_props ks [] (by simp) (by simp)
  have hfix : ∀ x ∈ cleanKeywordsGo [] ks, cleanKeyword x = x := by
    intro x hx
    rcases cleanKeywordsGo_mem ks [] x hx with h0 | ⟨k, hk, hkx⟩
    · simp at h0
    · subst hkx
      exact cleanKeyword_idem_of_wordchars k (h k hk)
  rw [cleanKeywordsGo_fixed _ [] hnd
    (fun x hx => ⟨hfix x hx, hne x hx, by simp⟩)]
  simp

/-! ### Title-keyword extraction lemmas -/

theorem wordRunsGo_chars :
    ∀ (cs acc : List Char), (∀ c ∈ acc, pyWordChar c = true) →
      ∀ w ∈ wordRunsGo cs acc, ∀ c ∈ w.data, pyWordChar c = true := by
  intro cs
  induction cs with
  | nil =>
    intro acc hacc w hw c hc
    rw [wordRunsGo] at hw
    split at hw
    · simp at hw
    · rw [List.mem_singleton.mp hw] at hc
      exact hacc c (List.mem_reverse.mp hc)
  | cons a cs ih =>
    intro acc hacc w hw c hc
    rw [wordRunsGo] at hw
    split at hw
    · next ha =>
      refine ih (a :: acc) ?_ w hw c hc
      intro d hd
      rcases List.mem_cons.mp hd with h | h
      · exact h ▸ ha
      · exact hacc d h
    · next ha =>
      split at hw
      · exact ih [] (by simp) w hw c hc
      · rcases List.mem_cons.mp hw with h | h
        · rw [h] at hc
          exact hacc c (List.mem_reverse.mp hc)
        · exact ih [] (by simp) w h c hc

theorem wordRunsGo_fixed :
    ∀ (cs acc : List Char), (∀ c ∈ cs, pyLowerChar c = c) →
      (∀ c ∈ acc, pyLowerChar c = c) →
      ∀ w ∈ wordRunsGo cs acc, ∀ c ∈ w.data, pyLowerChar c = c := by
  intro cs
  induction cs with
  | nil =>
    intro acc _ hacc w hw c hc
    rw [wordRunsGo] at hw
    split at hw
    · simp at hw
    · rw [List.mem_singleton.mp hw] at hc
      exact hacc c (List.mem_reverse.mp hc)
  | cons a cs ih =>
    intro acc hcs hacc w hw c hc
    have hcs2 : ∀ c ∈ cs, pyLowerChar c = c :=
      fun d hd => hcs d (List.mem_cons_of_mem _ hd)
    rw [wordRunsGo] at hw
    split at hw
    · refine ih (a :: acc) hcs2 ?_ w hw c hc
      intro d hd
      rcases List.mem_cons.mp hd with h | h
      · exact h ▸ hcs a (List.mem_cons_self _ _)
      · exact hacc d h
    · split at hw
      · exact ih [] hcs2 (by simp) w hw c hc
      · rcases List.mem_cons.mp hw with h | h
        · rw [h] at hc
          exact hacc c (List.mem_reverse.mp hc)
        · exact ih [] hcs2 (by simp) w h c hc

theorem dedupFirstGo_mem :
    ∀ (l acc : List String), ∀ x ∈ dedupFirstGo acc l, x ∈ acc ∨ x ∈ l := by
  intro l
  induction l with
  | nil => intro acc x hx; exact Or.inl hx
  | cons k ks ih =>
    intro acc x hx
    rw [dedupFirstGo] at hx
    split at hx
    · rcases ih acc x hx with h | h
      · exact Or.inl h
      · exact Or.inr (List.mem_cons_of_mem _ h)
    · rcases ih _ x hx with h | h
      · rcases List.mem_append.mp h with h2 | h2
        · exact Or.inl h2
        · exact Or.inr (List.mem_singleton.mp h2 ▸ List.mem_cons_self _ _)
      · exact Or.inr (List.mem_cons_of_mem _ h)

theorem dedupFirstGo_nodup :
    ∀ (l acc : List String), acc.Nodup → (dedupFirstGo acc l).Nodup := by
  intro l
  induction l with
  | nil => intro acc h; exact h
  | cons k ks ih =>
    intro acc h
    rw [dedupFirstGo]
    split
    · exact ih acc h
    · next hk =>
      refine ih _ (h.append (List.nodup_singleton _) ?_)
      intro a ha hmem
      rw [List.mem_singleton] at hmem
      exact hk (hmem ▸ ha)

theorem extractTitleKeywords_props (title : String) :
    (extractTitleKeywords title).Nodup
    ∧ ∀ x ∈ extractTitleKeywords title, cleanKeyword x = x ∧ x ≠ "" := by
  unfold extractTitleKeywords
  constructor
  · exact List.Nodup.sublist (List.take_sublist _ _) (dedupFirstGo_nodup _ [] (by simp))
  · intro x hx
    have hx2 := (List.take_sublist _ _).subset hx
    rcases dedupFirstGo_mem _ [] x hx2 with h | h
    · simp at h
    · obtain ⟨hruns, hfilter⟩ := List.mem_filter.mp h
      have hword : ∀ c ∈ x.data, pyWordChar c = true :=
        wordRunsGo_chars _ [] (by simp) x hruns
      have hfix : ∀ c ∈ x.data, pyLowerChar c = c := by
        refine wordRunsGo_fixed _ [] ?_ (by simp) x hruns
        intro c hc
        obtain ⟨d, _, hdc⟩ := List.mem_map.mp hc
        exact hdc ▸ pyLowerChar_idem d
      constructor
      · rw [cleanKeyword_of_wordchars x hword, pyLower_eq_self_of_fixed x hfix]
      · intro hempty
        rw [Bool.and_eq_true, decide_eq_true_eq] at hfilter
        have := hfilter.2
        rw [hempty] at this
        simp [String.length] at this

theorem clean_keywords_extractTitle (title : String) :
    clean_keywords (extractTitleKeywords title) = extractTitleKeywords title := by
  obtain ⟨hnd, hprops⟩ := extractTitleKeywords_props title
  unfold clean_keywords
  rw [cleanKeywordsGo_fixed _ [] hnd
    (fun x hx => ⟨(hprops x hx).1, (hprops x hx).2, by simp⟩)]
  simp

/-! ### Idempotence of `normalize_paper_info` on clean inputs (amended C6) -/

theorem optClean_spec (s : String) (h : optClean (some s) = true) :
    ∀ c ∈ s.data, c ≠ '<' ∧ c ≠ '&' := by
  intro c hc
  simp only [optClean, Option.elim] at h
  rw [List.all_eq_true] at h
  have := h c hc
  simpa using this

theorem noAdjWs_of_no_ws (cs : List Char) (h : ∀ c ∈ cs, pyWsChar c = false) :
    noAdjWs cs = true := by
  induction cs with
  | nil => rfl
  | cons c t ih =>
    cases t with
    | nil => rfl
    | cons d t2 =>
      rw [noAdjWs, Bool.and_eq_true]
      refine ⟨by simp [h c (List.mem_cons_self _ _)],
        ih (fun x hx => h x (List.mem_cons_of_mem _ hx))⟩

theorem collapseWs_eq_self_of_no_ws (cs : List Char)
    (h : ∀ c ∈ cs, pyWsChar c = false) : collapseWs cs = cs := by
  refine collapseWs_eq_self cs (noAdjWs_of_no_ws cs h) ?_
  rw [allWsSpace, List.all_eq_true]
  intro x hx
  simp [h x hx]

theorem clean_text_digits (s : String) (h : digitsOnly s = true) :
    clean_text s = s := by
  by_cases hs : s = ""
  · subst hs; rfl
  · rw [digitsOnly, List.all_eq_true] at h
    have hnw : ∀ c ∈ s.data, pyWsChar c = false :=
      fun c hc => isAsciiDigit_not_ws c (h c hc)
    have hlt : ∀ c ∈ s.data, c ≠ '<' := by
      intro c hc heq
      have := h c hc
      rw [heq] at this
      exact absurd this (by decide)
    have hamp : ∀ c ∈ s.data, c ≠ '&' := by
      intro c hc heq
      have := h c hc
      rw [heq] at this
      exact absurd this (by decide)
    unfold clean_text
    rw [if_neg hs, stripTagsGo_eq_self _ hlt, unescapeGo_eq_self _ hamp,
      collapseWs_eq_self_of_no_ws _ hnw, pyStripL_eq_self_of_no_ws _ hnw]

theorem clean_field_idem (o : Option String) (dflt : String)
    (hdef : clean_text dflt = dflt) (ho : optClean o = true) :
    clean_text (o.elim dflt clean_text) = o.elim dflt clean_text := by
  cases o with
  | none => simpa using hdef
  | some s =>
    simp only [Option.elim]
    exact clean_text_idem s (optClean_spec s ho)

theorem normalize_keywords_of_none (nowYear : String) (p : Paper)
    (hpk : p.keywords = none) :
    (normalize_paper_info nowYear p).keywords
      = extractTitleKeywords (p.title.elim "제목 없음" clean_text) := by
  simp [normalize_paper_info, hpk]

theorem normalize_keywords_of_list (nowYear : String) (p : Paper) (ks : List String)
    (hpk : p.keywords = some (KwField.list ks)) :
    (normalize_paper_info nowYear p).keywords
      = if clean_keywords ks = []
        then extractTitleKeywords (p.title.elim "제목 없음" clean_text)
        else clean_keywords ks := by
  simp only [normalize_paper_info, hpk]

/-- Claim C6 (amended): `normalize_paper_info` is idempotent on every record
whose present text fields contain neither `<` nor `&`, whose keyword field (if
present) is a list of word-character strings, and with an all-digit current
year.  (As stated, the claim is refuted by `normalize_paper_info_not_idempotent`:
entity decoding can create a tag that only the second pass strips, and keyword
cleaning can expose whitespace that only the second pass trims.) -/
theorem normalize_paper_info_idempotent_amended (nowYear : String) (p : Paper)
    (hy : digitsOnly nowYear = true)
    (ht : optClean p.title = true) (ha : optClean p.authors = true)
    (hyr : optClean p.year = true) (hab : optClean p.abstract = true)
    (hsrc : optClean p.source = true) (hk : kwClean p.keywords = true) :
    normalize_paper_info nowYear ((normalize_paper_info nowYear p).toPaper)
      = normalize_paper_info nowYear p := by
  have hd1 : clean_text "제목 없음" = "제목 없음" := by decide
  have hd2 : clean_text "저자 미상" = "저자 미상" := by decide
  have hd3 : clean_text "초록 정보가 없습니다." = "초록 정보가 없습니다." := by decide
  have hd4 : clean_text "출처 미상" = "출처 미상" := by decide
  have htitle : clean_text (p.title.elim "제목 없음" clean_text)
      = p.title.elim "제목 없음" clean_text := clean_field_idem p.title _ hd1 ht
  have hauthors : clean_text (p.authors.elim "저자 미상" clean_text)
      = p.authors.elim "저자 미상" clean_text := clean_field_idem p.authors _ hd2 ha
  have hyear : clean_text (p.year.elim nowYear clean_text)
      = p.year.elim nowYear clean_text :=
    clean_field_idem p.year _ (clean_text_digits nowYear hy) hyr
  have habstract : clean_text (p.abstract.elim "초록 정보가 없습니다." clean_text)
      = p.abstract.elim "초록 정보가 없습니다." clean_text :=
    clean_field_idem p.abstract _ hd3 hab
  have hsource : clean_text (p.source.elim "출처 미상" clean_text)
      = p.source.elim "출처 미상" clean_text := clean_field_idem p.source _ hd4 hsrc
  have hcase : (normalize_paper_info nowYear p).keywords
        = extractTitleKeywords (p.title.elim "제목 없음" clean_text)
      ∨ (clean_keywords (normalize_paper_info nowYear p).keywords
          = (normalize_paper_info nowYear p).keywords
        ∧ (normalize_paper_info nowYear p).keywords ≠ []) := by
    cases hpk : p.keywords with
    | none =>
      left
      rw [normalize_keywords_of_none nowYear p hpk]
    | some kf =>
      cases kf with
      | list ks =>
        have hlist := normalize_keywords_of_list nowYear p ks hpk
        by_cases hks : clean_keywords ks = []
        · left
          rw [hlist, if_pos hks]
        · right
          have hwords : ∀ k ∈ ks, ∀ c ∈ k.data, pyWordChar c = true := by
            rw [hpk, kwClean.eq_def] at hk
            simp only [List.all_eq_true] at hk
            exact hk
          rw [hlist, if_neg hks]
          exact ⟨clean_keywords_idem_of_wordchars ks hwords, hks⟩
      | str s => rw [hpk, kwClean.eq_def] at hk; simp at hk
      | other => rw [hpk, kwClean.eq_def] at hk; simp at hk
  apply NPaper.ext
  · exact htitle
  · exact hauthors
  · exact hyear
  · exact habstract
  · exact hsource
  · rfl
  · show (if clean_keywords (normalize_paper_info nowYear p).keywords = []
        then extractTitleKeywords
          (clean_text (p.title.elim "제목 없음" clean_text))
        else clean_keywords (normalize_paper_info nowYear p).keywords)
      = (normalize_paper_info nowYear p).keywords
    rw [htitle]
    rcases hcase with hT | ⟨hfix, hne⟩
    · rw [hT, clean_keywords_extractTitle]
      split_ifs with hTe
      · rw [hTe]
      · rfl
    · rw [hfix, if_neg hne]
  · rfl

/-- Witness for the amended C6 at a concrete clean record. -/
theorem normalize_paper_info_idempotent_amended_witness :
    (digitsOnly "2025" = true ∧ optClean pW6.title = true
      ∧ optClean pW6.authors = true ∧ optClean pW6.year = true
      ∧ optClean pW6.abstract = true ∧ optClean pW6.source = true
      ∧ kwClean pW6.keywords = true)
    ∧ normalize_paper_info "2025" ((normalize_paper_info "2025" pW6).toPaper)
        = normalize_paper_info "2025" pW6 :=
  ⟨by decide,
   normalize_paper_info_idempotent_amended "2025" pW6 (by decide) (by decide)
     (by decide) (by decide) (by decide) (by decide) (by decide)⟩

/-! ### Claims C5 and C10: the cache round-trip and hash-collision behaviour -/

/-- Claim C5: within one process (one fixed `hash`), writing a payload and
reading it back under the same key before the 24-hour TTL has elapsed
returns the payload unchanged. -/
theorem save_then_load_roundtrip {α : Type} (h : String → Int)
    (store : Int → Option (CacheEntry α)) (t0 t1 : Nat) (key : String) (data : α)
    (hle : t0 ≤ t1) (hfresh : t1 - t0 ≤ 24 * 3600) :
    load_from_cache h (save_to_cache h store t0 key data) t1 key 24 = some data := by
  unfold load_from_cache save_to_cache
  rw [if_pos rfl]
  show (if t1 - t0 > 24 * 3600 then none else some data) = some data
  rw [if_neg (by omega)]

/-- Witness for C5 at a concrete hash, store, clock and payload. -/
theorem save_then_load_roundtrip_witness :
    (0 : Nat) ≤ 100 ∧ 100 - 0 ≤ 24 * 3600
    ∧ load_from_cache (fun x => (7 : Int))
        (save_to_cache (fun x => (7 : Int)) (fun x => none) 0 "k" "v") 100 "k" 24
      = some "v" :=
  ⟨by decide, by decide,
   save_then_load_roundtrip (fun x => (7 : Int)) (fun x => none) 0 100 "k" "v"
     (by decide) (by decide)⟩

/-- Claim C10: `load_from_cache` identifies an entry solely by the
hash-derived file name and never checks the stored `"key"` field: if two
distinct keys collide under the hash, a fresh write under the first key is
returned for a read under the second key instead of a cache miss. -/
theorem load_ignores_stored_key_on_collision {α : Type} (h : String → Int)
    (store : Int → Option (CacheEntry α)) (now : Nat) (k1 k2 : String) (data : α)
    (hne : k1 ≠ k2) (hcoll : h k1 = h k2) :
    load_from_cache h (save_to_cache h store now k1 data) now k2 24 = some data := by
  unfold load_from_cache save_to_cache
  rw [if_pos hcoll.symm]
  show (if now - now > 24 * 3600 then none else some data) = some data
  rw [if_neg (by omega)]

/-- Witness for C10: the constant hash collides every pair of keys; reading
`"b"` returns the payload written under `"a"`. -/
theorem load_ignores_stored_key_on_collision_witness :
    ("a" : String) ≠ "b"
    ∧ (fun x : String => (0 : Int)) "a" = (fun x : String => (0 : Int)) "b"
    ∧ load_from_cache (fun x => (0 : Int))
        (save_to_cache (fun x => (0 : Int)) (fun x => none) 5 "a" "payload") 5 "b" 24
      = some "payload" :=
  ⟨by decide, rfl,
   load_ignores_stored_key_on_collision (fun x => (0 : Int)) (fun x => none) 5 "a" "b"
     "payload" (by decide) rfl⟩

/-! ### Claim C8: internal search for "없는주제있음없음" -/

/-- Counterexample to claim C8 as stated: run end-to-end (topic only, keywords
auto-extracted by `extract_keywords` as on the `search_papers` path), the
internal search against the 3-record sample set is NOT empty: the generic
padding keywords "연구" and "분석" occur in the abstracts of the first two
sample records. -/
theorem search_internal_db_extracted_keywords_not_empty :
    search_internal_db sampleInternalDb "없는주제있음없음"
        (extract_keywords "없는주제있음없음" 5)
      = [samplePaper1, samplePaper2]
    ∧ search_internal_db sampleInternalDb "없는주제있음없음"
        (extract_keywords "없는주제있음없음" 5) ≠ [] := by
  constructor
  · decide
  · decide

/-- Claim C8 (amended): the internal search for topic "없는주제있음없음"
against the built-in 3-record sample set returns the empty list when the
keyword list is empty (the topic matches no record's title, abstract or
keyword list); with keywords auto-extracted from the topic, the generic
padding keywords match two sample records, which are returned instead. -/
theorem search_internal_db_no_match :
    search_internal_db sampleInternalDb "없는주제있음없음" [] = []
    ∧ search_internal_db sampleInternalDb "없는주제있음없음"
        (extract_keywords "없는주제있음없음" 5)
      = [samplePaper1, samplePaper2] := by
  constructor
  · decide
  · decide

/-! ### Claim C9: `search_papers` concatenates without merging -/

/-- Claim C9: the `search_papers` endpoint returns the plain concatenation of
internal then external results (`merge_search_results` is not on this path),
so the response can contain two records with the same lowercased title, and
records are returned without normalization (a record that
`normalize_paper_info` would change appears verbatim). -/
theorem search_papers_plain_concat_unmerged :
    (∀ (env : NetEnv) (db : List Paper) (topic : String)
        (req : Option (List String)),
      search_papers env db topic req
        = search_internal_db db topic (effectiveKeywords topic req)
          ++ search_external_api env topic (effectiveKeywords topic req))
    ∧ ¬ (((search_papers netAllOk [dupPaper, dupPaper] "abc" (some ["zz"])).map
          (fun p => pyLower (p.title.getD ""))).Nodup)
    ∧ dupPaper ∈ search_papers netAllOk [dupPaper, dupPaper] "abc" (some ["zz"])
    ∧ (normalize_paper_info "2025" dupPaper).toPaper ≠ dupPaper := by
  refine ⟨fun env db topic req => rfl, by decide, by decide, by decide⟩

/-! ### Claim C3: niche-topic extraction always yields exactly 5 suggestions -/

/-- Claim C3: for every topic and every raw backend output (however many
usable bullet/numbered lines it yields after prefix-stripping — 0, fewer
than 5, exactly 5, or more), the niche-topic post-processing returns exactly
5 suggestion strings. -/
theorem niche_topics_exactly_five (topic rawText : String) :
    (extractNicheTopics topic rawText).length = 5 := by
  unfold extractNicheTopics nichePad
  have hdef : (defaultNicheTopics topic).length = 5 := by
    simp [defaultNicheTopics]
  by_cases h : (pickedNicheLines rawText).length < 5
  · rw [if_pos h]
    simp only [List.length_take, List.length_append, hdef]
    omega
  · rw [if_neg h]
    simp only [List.length_take]
    omega

/-! ### Claim C4: the generation operations never propagate exceptions -/

theorem dictKeys_paperContentBody (env : AgentEnv) (topic : String) (p : Paper)
    (kws k0 : String) :
    dictKeys (paperContentBody env topic p kws k0)
      = ["introduction", "methods", "results", "conclusion", "references",
         "disclaimer", "niche_topics"] := rfl

/-- Claim C4: any exception raised inside `generate_paper_content` or
`generate_niche_content` is caught at the top of the operation and converted
into the canned response dict, whose key set equals that of a successful
fresh response (introduction/methods/results/conclusion/references/
disclaimer/niche_topics, resp. introduction/methods/expected_results/
disclaimer); the operations themselves are total and never return an
exception to the caller. -/
theorem generation_ops_catch_exceptions (env : AgentEnv) (store : CacheStore)
    (topic nicheTopic : String) (p : Paper) :
    (∀ e, generatePaperBody env store topic p = Except.error e →
      generate_paper_content env store topic p = (paperErrorContent, store))
    ∧ dictKeys paperErrorContent
        = ["introduction", "methods", "results", "conclusion", "references",
           "disclaimer", "niche_topics"]
    ∧ (∀ d, freshPaperContent env topic p = Except.ok d →
        dictKeys d = dictKeys paperErrorContent)
    ∧ (∀ e, generateNicheBody env store topic nicheTopic = Except.error e →
      generate_niche_content env store topic nicheTopic = (nicheErrorContent, store))
    ∧ dictKeys nicheErrorContent
        = ["introduction", "methods", "expected_results", "disclaimer"]
    ∧ dictKeys (freshNicheContent env topic nicheTopic)
        = dictKeys nicheErrorContent := by
  refine ⟨?_, rfl, ?_, ?_, rfl, rfl⟩
  · intro e he
    unfold generate_paper_content
    rw [he]
  · intro d hd
    unfold freshPaperContent at hd
    cases hjk : joinKeywords p.keywords with
    | error e =>
      rw [hjk] at hd
      have hd2 : (Except.error e : Except AgentErr JDict) = Except.ok d := hd
      cases hd2
    | ok kws =>
      rw [hjk] at hd
      cases hfk : firstKeyword p.keywords with
      | error e =>
        rw [hfk] at hd
        have hd2 : (Except.error e : Except AgentErr JDict) = Except.ok d := hd
        cases hd2
      | ok k0 =>
        rw [hfk] at hd
        have hd2 : Except.ok (paperContentBody env topic p kws k0)
            = Except.ok d := hd
        rw [← Except.ok.inj hd2]
        exact dictKeys_paperContentBody env topic p kws k0
  · intro e he
    unfold generate_niche_content
    rw [he]

/-- Witness for C4: with failing cache writes both operations return the
canned dicts; a successful fresh generation has the same key set. -/
theorem generation_ops_catch_exceptions_witness :
    generate_paper_content envW storeEmpty "t" pW6 = (paperErrorContent, storeEmpty)
    ∧ generate_niche_content envW storeEmpty "t" "n" = (nicheErrorContent, storeEmpty)
    ∧ ∃ d, freshPaperContent envT "t" pW6 = Except.ok d
        ∧ dictKeys d = dictKeys paperErrorContent :=
  ⟨(generation_ops_catch_exceptions envW storeEmpty "t" "n" pW6).1
      AgentErr.ioError rfl,
   (generation_ops_catch_exceptions envW storeEmpty "t" "n" pW6).2.2.2.1
      AgentErr.ioError rfl,
   ⟨_, rfl, (generation_ops_catch_exceptions envT storeEmpty "t" "n" pW6).2.2.1
      _ rfl⟩⟩

/-! ### Claim C7: no TTL on the `generate_paper_content` cache path -/

/-- Claim C7: when the cache file for `(topic, paper_info)` exists and parses
as JSON, `generate_paper_content` returns the cached dict unchanged whatever
the entry's age (no TTL is consulted on this path); and from a cold cache,
a successful first call writes its result to the cache file (which then
exists) and an identical second call returns exactly the first call's
output. -/
theorem paper_content_cache_no_ttl (env : AgentEnv) (store : CacheStore)
    (topic : String) (p : Paper) :
    (∀ (age : Nat) (d : JDict),
      store (paperCacheFile env topic p) = some ⟨age, some d⟩ →
      generate_paper_content env store topic p = (d, store))
    ∧ (store (paperCacheFile env topic p) = none → env.writeOk = true →
      ∀ c, freshPaperContent env topic p = Except.ok c →
        (generate_paper_content env store topic p).1 = c
        ∧ (generate_paper_content env store topic p).2 (paperCacheFile env topic p)
            = some ⟨0, some c⟩
        ∧ (generate_paper_content env
            (generate_paper_content env store topic p).2 topic p).1 = c) := by
  constructor
  · intro age d hst
    unfold generate_paper_content generatePaperBody
    rw [hst]
  · intro hnone hw c hc
    have hbody : generatePaperBody env store topic p
        = Except.ok (c, fun f => if f = paperCacheFile env topic p
            then some ⟨0, some c⟩ else store f) := by
      unfold generatePaperBody
      rw [hnone, hc]
      show writeCache env store (paperCacheFile env topic p) c = _
      unfold writeCache
      rw [if_pos hw]
    have hgen : generate_paper_content env store topic p
        = (c, fun f => if f = paperCacheFile env topic p
            then some ⟨0, some c⟩ else store f) := by
      unfold generate_paper_content
      rw [hbody]
    refine ⟨by rw [hgen], by rw [hgen]; simp, ?_⟩
    rw [hgen]
    show (generate_paper_content env
        (fun f => if f = paperCacheFile env topic p
          then some ⟨0, some c⟩ else store f) topic p).1 = c
    unfold generate_paper_content generatePaperBody
    rw [show (fun f => if f = paperCacheFile env topic p
        then some (CacheFile.mk 0 (some c)) else store f) (paperCacheFile env topic p)
      = some ⟨0, some c⟩ from by simp]

/-- Witness for C7: a stale (999-hour-old) cached entry is returned as-is;
from an empty cache the first call's output is written and the second call
returns it. -/
theorem paper_content_cache_no_ttl_witness :
    generate_paper_content envT storeStale "t" pW6 = ([("x", JVal.s "y")], storeStale)
    ∧ ∃ c, freshPaperContent envT "t" pW6 = Except.ok c
        ∧ (generate_paper_content envT storeEmpty "t" pW6).1 = c
        ∧ (generate_paper_content envT storeEmpty "t" pW6).2 (paperCacheFile envT "t" pW6)
            = some ⟨0, some c⟩
        ∧ (generate_paper_content envT
            (generate_paper_content envT storeEmpty "t" pW6).2 "t" pW6).1 = c :=
  ⟨(paper_content_cache_no_ttl envT storeStale "t" pW6).1 999 [("x", JVal.s "y")] rfl,
   ⟨_, rfl, (paper_content_cache_no_ttl envT storeEmpty "t" pW6).2 rfl rfl _ rfl⟩⟩
